import Mathlib

/-!
Verification of the poker core of `mic-mind-poker`.

The definitions below are a shallow embedding of the Python sources:
* `src/game/card.py`    — `Card`, `Deck`
* `src/game/poker_hand.py` — `PokerHandEvaluator`
* `src/game/probability.py` — `WinProbabilityCalculator`
* `src/game/player.py`  — `Player`

Python machine-free integers are modelled as `Nat`/`Int`, Python floats as
exact rationals `ℚ`, exceptions as `Option`/`Except`, and the random shuffles
consumed by the Monte-Carlo estimator as explicit lists of decks passed in as
an oracle parameter.
-/

namespace MicMind

/-! ## Card model (src/game/card.py) -/

/-- The thirteen ranks of `RANKS = ['2',…,'A']`. -/
inductive Rank
  | n2 | n3 | n4 | n5 | n6 | n7 | n8 | n9 | n10
  | jack | queen | king | ace
deriving DecidableEq, Repr

/-- The four suits of `SUITS`. -/
inductive Suit
  | hearts | diamonds | clubs | spades
deriving DecidableEq, Repr

/-- `RANK_VALUES[rank]`: the numeric value 2–14 of a rank (`Card.value`). -/
def Rank.value : Rank → Nat
  | .n2 => 2 | .n3 => 3 | .n4 => 4 | .n5 => 5 | .n6 => 6 | .n7 => 7
  | .n8 => 8 | .n9 => 9 | .n10 => 10 | .jack => 11 | .queen => 12
  | .king => 13 | .ace => 14

/-- A card is a rank/suit pair; equality is value equality (`Card.__eq__`). -/
structure Card where
  rank : Rank
  suit : Suit
deriving DecidableEq, Repr

/-- `card.value` (derived from `RANK_VALUES`). -/
def Card.value (c : Card) : Nat := c.rank.value

/-- The ordered rank list `RANKS`. -/
def RANKS : List Rank :=
  [.n2, .n3, .n4, .n5, .n6, .n7, .n8, .n9, .n10, .jack, .queen, .king, .ace]

/-- The ordered suit list `SUITS`. -/
def SUITS : List Suit := [.hearts, .diamonds, .clubs, .spades]

/-- The 52-card list built by `Deck.reset` before shuffling:
`[Card(rank, suit) for suit in SUITS for rank in RANKS]`. -/
def resetCards : List Card :=
  SUITS.flatMap (fun s => RANKS.map (fun r => ⟨r, s⟩))

/-- `Deck.deal(num)`: errors when `num` exceeds the remaining cards, else
returns the dealt prefix and the remaining cards. -/
def deal (cards : List Card) (num : Nat) : Except String (List Card × List Card) :=
  if num > cards.length then .error "Cannot deal"
  else .ok (cards.take num, cards.drop num)

/-! ## Hand evaluation (src/game/poker_hand.py) -/

/-- `sorted(values, reverse=True)`. -/
def sortDesc (l : List Nat) : List Nat := List.insertionSort (· ≥ ·) l

/-- `sorted(values)`. -/
def sortAsc (l : List Nat) : List Nat := List.insertionSort (· ≤ ·) l

/-- Python `max` on a nonempty list (`0` on the empty list, never hit). -/
def pyMax : List Nat → Nat
  | [] => 0
  | x :: xs => xs.foldl max x

/-- Python `min` on a nonempty list (`0` on the empty list, never hit). -/
def pyMin : List Nat → Nat
  | [] => 0
  | x :: xs => xs.foldl min x

/-- Python `set(a) == set(b)`. -/
def setEq (a b : List Nat) : Bool := a.all (b.contains ·) && b.all (a.contains ·)

/-- `PokerHandEvaluator._is_straight(values)`. -/
def isStraightVals (values : List Nat) : Bool :=
  (sortAsc values == List.range' (pyMin values) 5) || setEq values [14, 2, 3, 4, 5]

/-- `value_counts[v]` where `value_counts = Counter(values)`. -/
def cntOf (values0 : List Nat) (v : Nat) : Nat := values0.count v

/-- `k in value_counts.values()`. -/
def hasCount (values0 : List Nat) (k : Nat) : Bool :=
  values0.dedup.any (fun v => values0.count v == k)

/-- `list(value_counts.values()).count(2)` (the two-pair guard count). -/
def pairsCount (values0 : List Nat) : Nat :=
  (values0.dedup.map (fun v => values0.count v)).count 2

/-- `[v for v, c in value_counts.items() if c == k][0]`. -/
def pickVal (values0 : List Nat) (k : Nat) : Nat :=
  (values0.dedup.filter (fun v => values0.count v == k)).headD 0

/-- `[v for v, c in value_counts.items() if c != k][0]`. -/
def pickValNe (values0 : List Nat) (k : Nat) : Nat :=
  (values0.dedup.filter (fun v => !(values0.count v == k))).headD 0

/-- `sorted([v for v, c in value_counts.items() if c != k], reverse=True)`. -/
def kickersNe (values0 : List Nat) (k : Nat) : List Nat :=
  sortDesc (values0.dedup.filter (fun v => !(values0.count v == k)))

/-- The wheel special case of `evaluate_hand`: when the values are exactly
A-2-3-4-5 the ace is re-anchored low (`values = [5, 4, 3, 2, 1]`). -/
def wheelAdjust (values0 : List Nat) : List Nat :=
  if setEq values0 [14, 2, 3, 4, 5] then [5, 4, 3, 2, 1] else values0

/-- The category/tiebreaker computation of `evaluate_hand` on the descending
value list `values0` and the suit list, mirroring the branch order of the
source (royal flush down to high card).  `value_counts` is computed from the
pre-wheel-remap values, exactly as in the source. -/
def evalCore (values0 : List Nat) (suits : List Suit) : Nat × List Nat :=
  let isFlush := suits.dedup.length == 1
  let isStr := isStraightVals values0
  let values := wheelAdjust values0
  if isFlush && isStr && (pyMax values == 14) && (pyMin values == 10) then
    (10, values)
  else if isFlush && isStr then
    (9, values)
  else if hasCount values0 4 then
    (8, [pickVal values0 4, pickValNe values0 4])
  else if hasCount values0 3 && hasCount values0 2 then
    (7, [pickVal values0 3, pickVal values0 2])
  else if isFlush then
    (6, values)
  else if isStr then
    (5, values)
  else if hasCount values0 3 then
    (4, pickVal values0 3 :: kickersNe values0 3)
  else if pairsCount values0 == 2 then
    (3, sortDesc (values0.dedup.filter (fun v => values0.count v == 2)) ++ [pickVal values0 1])
  else if hasCount values0 2 then
    (2, pickVal values0 2 :: kickersNe values0 2)
  else
    (1, values)

/-- `PokerHandEvaluator.evaluate_hand`: `none` models the `ValueError` raised
when the hand is not exactly 5 cards.  Returns `(hand_rank, tiebreakers)`. -/
def evaluate_hand (cards : List Card) : Option (Nat × List Nat) :=
  if cards.length = 5 then
    some (evalCore (sortDesc (cards.map Card.value)) (cards.map Card.suit))
  else none

/-- `HandRank.NAMES[rank]`. -/
def rankName : Nat → String
  | 1 => "High Card"
  | 2 => "One Pair"
  | 3 => "Two Pair"
  | 4 => "Three of a Kind"
  | 5 => "Straight"
  | 6 => "Flush"
  | 7 => "Full House"
  | 8 => "Four of a Kind"
  | 9 => "Straight Flush"
  | 10 => "Royal Flush"
  | _ => ""

/-- The `zip`-based tiebreaker comparison loop of `_compare_hands` (the zip
stops at the shorter list). -/
def cmpList : List Nat → List Nat → Int
  | [], _ => 0
  | _ :: _, [] => 0
  | x :: xs, y :: ys => if x ≠ y then (x : Int) - (y : Int) else cmpList xs ys

/-- `PokerHandEvaluator._compare_hands`. -/
def compare_hands (h1 h2 : Nat × List Nat) : Int :=
  if h1.1 ≠ h2.1 then (h1.1 : Int) - (h2.1 : Int) else cmpList h1.2 h2.2

/-- One step of the best-hand search loop of `best_hand`. -/
def bestStep (best : Nat × List Nat) (c : List Card) : Nat × List Nat :=
  match evaluate_hand c with
  | some cur => if 0 < compare_hands cur best then cur else best
  | none => best

/-- `PokerHandEvaluator.best_hand` (category and tiebreakers of the best
5-card sub-hand): `none` models the `ValueError` for fewer than 5 cards. -/
def best_hand (cards : List Card) : Option (Nat × List Nat) :=
  if cards.length < 5 then none
  else some ((cards.sublistsLen 5).foldl bestStep (0, []))

/-! ## Basic facts about the embedding -/

lemma Card.value_le (c : Card) : c.value ≤ 14 := by
  rcases c with ⟨r, s⟩
  cases r <;> simp [Card.value, Rank.value]

lemma sortDesc_perm (l : List Nat) : List.Perm (sortDesc l) l := List.perm_insertionSort _ l

lemma sortDesc_length (l : List Nat) : (sortDesc l).length = l.length :=
  (sortDesc_perm l).length_eq

lemma sortDesc_mem {x : Nat} {l : List Nat} : x ∈ sortDesc l ↔ x ∈ l :=
  (sortDesc_perm l).mem_iff

lemma hasCount_iff (l : List Nat) (k : Nat) :
    hasCount l k = true ↔ ∃ v ∈ l.dedup, l.count v = k := by
  simp [hasCount]

lemma hasCount_false (l : List Nat) (k : Nat) (h : hasCount l k = false) :
    ∀ v ∈ l.dedup, l.count v ≠ k := by
  intro v hv hc
  have : hasCount l k = true := (hasCount_iff l k).2 ⟨v, hv, hc⟩
  rw [h] at this
  exact Bool.false_ne_true this

lemma pairsCount_eq (l : List Nat) :
    pairsCount l = (l.dedup.filter (fun v => l.count v == 2)).length := by
  show ((l.dedup.map fun v => l.count v).countP (fun x => x == 2)) = _
  rw [List.countP_map, List.countP_eq_length_filter]
  rfl

lemma headD_filter_le (l : List Nat) (p : Nat → Bool) (hb : ∀ x ∈ l, x ≤ 14) :
    (l.dedup.filter p).headD 0 ≤ 14 := by
  cases h : l.dedup.filter p with
  | nil => simp
  | cons a t =>
    have ha : a ∈ l.dedup.filter p := by rw [h]; exact List.mem_cons_self a t
    have : a ∈ l := List.mem_dedup.1 (List.mem_filter.1 ha).1
    simpa using hb a this

lemma kickersNe_le (l : List Nat) (k : Nat) (hb : ∀ x ∈ l, x ≤ 14) :
    ∀ x ∈ kickersNe l k, x ≤ 14 := by
  intro x hx
  have : x ∈ l.dedup.filter (fun v => !(l.count v == k)) := sortDesc_mem.1 hx
  exact hb x (List.mem_dedup.1 (List.mem_filter.1 this).1)

/-! ### Multiset counting: lengths of the kicker lists

These establish that in a 5-card hand the three-of-a-kind branch has exactly
two residual distinct values and the one-pair branch exactly three, which
fixes the tiebreaker-list length of each category. -/

lemma sum_map_all_eq {A : List Nat} {f : Nat → Nat} {c : Nat}
    (h : ∀ x ∈ A.map f, x = c) : (A.map f).sum = A.length * c := by
  have : A.map f = List.replicate (A.map f).length c :=
    List.eq_replicate_iff.2 ⟨rfl, h⟩
  rw [this, List.sum_replicate, List.length_map, smul_eq_mul]

lemma filter_dedup_counts (l : List Nat) (p : Nat → Bool)
    (h5 : l.length = 5) :
    ((l.dedup.filter p).map fun v => l.count v).sum
      + ((l.dedup.filter (fun v => !(p v))).map fun v => l.count v).sum = 5 := by
  rw [List.sum_map_count_dedup_filter_eq_countP p l]
  have h2 : l.dedup.filter (fun v => !(p v)) = l.dedup.filter (fun v => ¬ p v = true) := by
    simp
  rw [h2, List.sum_map_count_dedup_filter_eq_countP (fun v => ¬ p v = true) l]
  have := List.length_eq_countP_add_countP (p := p) (l := l)
  omega

lemma length_filter_ne_of_guards (l : List Nat) (k : Nat) (other : Nat)
    (h5 : l.length = 5)
    (hk23 : k = 2 ∨ k = 3)
    (hother : ∀ v ∈ l.dedup, l.count v ≠ other)
    (hoth5 : other = 5 - k)
    (hnot2 : (l.dedup.filter (fun v => l.count v == k)).length = 1) :
    (l.dedup.filter (fun v => !(l.count v == k))).length = 5 - k := by
  set A := l.dedup.filter (fun v => l.count v == k) with hA
  set B := l.dedup.filter (fun v => !(l.count v == k)) with hB
  have hsum : ((A.map fun v => l.count v).sum) + ((B.map fun v => l.count v).sum) = 5 :=
    filter_dedup_counts l (fun v => l.count v == k) h5
  have hAall : ∀ x ∈ A.map (fun v => l.count v), x = k := by
    intro x hx
    obtain ⟨v, hv, rfl⟩ := List.mem_map.1 hx
    simpa using (List.mem_filter.1 hv).2
  have hAsum : (A.map fun v => l.count v).sum = k := by
    rw [sum_map_all_eq hAall, hnot2, one_mul]
  have hBsum : (B.map fun v => l.count v).sum = 5 - k := by omega
  have hBall : ∀ x ∈ B.map (fun v => l.count v), x = 1 := by
    intro x hx
    obtain ⟨v, hv, rfl⟩ := List.mem_map.1 hx
    have hvd : v ∈ l.dedup := (List.mem_filter.1 hv).1
    have hne : l.count v ≠ k := by simpa using (List.mem_filter.1 hv).2
    have hpos : 0 < l.count v :=
      List.count_pos_iff.2 (List.mem_dedup.1 hvd)
    have hle : l.count v ≤ (B.map fun v => l.count v).sum :=
      List.single_le_sum (by intro y _; exact Nat.zero_le y) _ hx
    have hno : l.count v ≠ other := hother v hvd
    omega
  have : (B.map fun v => l.count v).sum = B.length * 1 := sum_map_all_eq hBall
  simp only [mul_one] at this
  omega

lemma length_A_trips (l : List Nat) (h5 : l.length = 5)
    (h3 : hasCount l 3 = true) :
    (l.dedup.filter (fun v => l.count v == 3)).length = 1 := by
  set A := l.dedup.filter (fun v => l.count v == 3) with hA
  set B := l.dedup.filter (fun v => !(l.count v == 3)) with hB
  have hsum : ((A.map fun v => l.count v).sum) + ((B.map fun v => l.count v).sum) = 5 :=
    filter_dedup_counts l (fun v => l.count v == 3) h5
  have hAall : ∀ x ∈ A.map (fun v => l.count v), x = 3 := by
    intro x hx
    obtain ⟨v, hv, rfl⟩ := List.mem_map.1 hx
    simpa using (List.mem_filter.1 hv).2
  have hAsum : (A.map fun v => l.count v).sum = A.length * 3 := sum_map_all_eq hAall
  have hApos : 1 ≤ A.length := by
    obtain ⟨v, hv, hc⟩ := (hasCount_iff l 3).1 h3
    have : v ∈ A := List.mem_filter.2 ⟨hv, by simpa using hc⟩
    have := List.length_pos_of_mem this
    omega
  omega

lemma length_A_pair (l : List Nat) (h5 : l.length = 5)
    (h2 : hasCount l 2 = true) (hp : ¬ pairsCount l = 2) :
    (l.dedup.filter (fun v => l.count v == 2)).length = 1 := by
  set A := l.dedup.filter (fun v => l.count v == 2) with hA
  set B := l.dedup.filter (fun v => !(l.count v == 2)) with hB
  have hsum : ((A.map fun v => l.count v).sum) + ((B.map fun v => l.count v).sum) = 5 :=
    filter_dedup_counts l (fun v => l.count v == 2) h5
  have hAall : ∀ x ∈ A.map (fun v => l.count v), x = 2 := by
    intro x hx
    obtain ⟨v, hv, rfl⟩ := List.mem_map.1 hx
    simpa using (List.mem_filter.1 hv).2
  have hAsum : (A.map fun v => l.count v).sum = A.length * 2 := sum_map_all_eq hAall
  have hApos : 1 ≤ A.length := by
    obtain ⟨v, hv, hc⟩ := (hasCount_iff l 2).1 h2
    have : v ∈ A := List.mem_filter.2 ⟨hv, by simpa using hc⟩
    have := List.length_pos_of_mem this
    omega
  have hAne : A.length ≠ 2 := by
    rw [pairsCount_eq] at hp
    exact fun h => hp (by rw [← hA] at *; omega)
  omega

lemma kickers_len_trips (l : List Nat) (h5 : l.length = 5)
    (h3 : hasCount l 3 = true) (h2 : hasCount l 2 = false) :
    (kickersNe l 3).length = 2 := by
  have hA := length_A_trips l h5 h3
  have := length_filter_ne_of_guards l 3 2 h5 (by omega)
    (hasCount_false l 2 h2) (by omega) hA
  simpa [kickersNe, sortDesc_length] using this

lemma kickers_len_pair (l : List Nat) (h5 : l.length = 5)
    (h2 : hasCount l 2 = true) (h3 : hasCount l 3 = false)
    (hp : ¬ pairsCount l = 2) :
    (kickersNe l 2).length = 3 := by
  have hA := length_A_pair l h5 h2 hp
  have := length_filter_ne_of_guards l 2 3 h5 (by omega)
    (hasCount_false l 3 h3) (by omega) hA
  simpa [kickersNe, sortDesc_length] using this

/-! ### Shape of evaluated scores

`tbLen` records the tiebreaker-list length each category produces; together
with the value bound `≤ 14` this is what makes `_compare_hands` a total order
on reachable scores. -/

/-- Length of the tiebreaker list produced by each hand category
(0 is the sentinel initial value of the `best_hand` search). -/
def tbLen (r : Nat) : Nat :=
  if r = 8 ∨ r = 7 then 2
  else if r = 4 ∨ r = 3 then 3
  else if r = 2 then 4
  else if r = 0 then 0
  else 5

/-- Well-formedness of a `(category, tiebreakers)` score as produced by the
evaluator (or the search's initial sentinel `(0, [])`). -/
def Shape (s : Nat × List Nat) : Prop :=
  s.1 ≤ 10 ∧ s.2.length = tbLen s.1 ∧ ∀ x ∈ s.2, x ≤ 14

lemma shape_init : Shape (0, []) := by
  refine ⟨by norm_num, by simp [tbLen], by simp⟩

lemma evalCore_shape (values0 : List Nat) (suits : List Suit)
    (h5 : values0.length = 5) (hb : ∀ x ∈ values0, x ≤ 14) :
    Shape (evalCore values0 suits) ∧ 1 ≤ (evalCore values0 suits).1 := by
  have hbw : ∀ x ∈ wheelAdjust values0, x ≤ 14 := by
    unfold wheelAdjust
    split
    · intro x hx; simp at hx; omega
    · exact hb
  have hlw : (wheelAdjust values0).length = 5 := by
    unfold wheelAdjust
    split
    · rfl
    · exact h5
  simp only [evalCore]
  split_ifs with g1 g2 g3 g4 g5 g6 g7 g8 g9
  · exact ⟨⟨by norm_num, by simpa [tbLen] using hlw, hbw⟩, by norm_num⟩
  · exact ⟨⟨by norm_num, by simpa [tbLen] using hlw, hbw⟩, by norm_num⟩
  · refine ⟨⟨by norm_num, by simp [tbLen], ?_⟩, by norm_num⟩
    intro x hx
    simp only [List.mem_cons, List.mem_singleton, List.not_mem_nil, or_false] at hx
    rcases hx with rfl | rfl
    · exact headD_filter_le values0 _ hb
    · exact headD_filter_le values0 _ hb
  · refine ⟨⟨by norm_num, by simp [tbLen], ?_⟩, by norm_num⟩
    intro x hx
    simp only [List.mem_cons, List.mem_singleton, List.not_mem_nil, or_false] at hx
    rcases hx with rfl | rfl
    · exact headD_filter_le values0 _ hb
    · exact headD_filter_le values0 _ hb
  · exact ⟨⟨by norm_num, by simpa [tbLen] using hlw, hbw⟩, by norm_num⟩
  · exact ⟨⟨by norm_num, by simpa [tbLen] using hlw, hbw⟩, by norm_num⟩
  · -- three of a kind
    have hg4 : hasCount values0 2 = false := by
      cases h : hasCount values0 2 with
      | false => rfl
      | true => exact absurd (by simp [g7, h]) g4
    refine ⟨⟨by norm_num, ?_, ?_⟩, by norm_num⟩
    · have := kickers_len_trips values0 h5 g7 hg4
      simp [tbLen, this]
    · intro x hx
      rcases List.mem_cons.1 hx with rfl | hx
      · exact headD_filter_le values0 _ hb
      · exact kickersNe_le values0 3 hb x hx
  · -- two pair
    have hlen : (values0.dedup.filter (fun v => values0.count v == 2)).length = 2 := by
      have : pairsCount values0 = 2 := by simpa using g8
      rw [← pairsCount_eq]; exact this
    refine ⟨⟨by norm_num, ?_, ?_⟩, by norm_num⟩
    · simp [tbLen, sortDesc_length, hlen]
    · intro x hx
      rcases List.mem_append.1 hx with hx | hx
      · have : x ∈ values0.dedup.filter (fun v => values0.count v == 2) :=
          sortDesc_mem.1 hx
        exact hb x (List.mem_dedup.1 (List.mem_filter.1 this).1)
      · have : x = pickVal values0 1 := by simpa using hx
        rw [this]; exact headD_filter_le values0 _ hb
  · -- one pair
    have hg7 : hasCount values0 3 = false := by
      cases h : hasCount values0 3 with
      | false => rfl
      | true => exact absurd h g7
    have hp : ¬ pairsCount values0 = 2 := by
      intro h; exact g8 (by simp [h])
    refine ⟨⟨by norm_num, ?_, ?_⟩, by norm_num⟩
    · have := kickers_len_pair values0 h5 g9 hg7 hp
      simp [tbLen, this]
    · intro x hx
      rcases List.mem_cons.1 hx with rfl | hx
      · exact headD_filter_le values0 _ hb
      · exact kickersNe_le values0 2 hb x hx
  · exact ⟨⟨by norm_num, by simpa [tbLen] using hlw, hbw⟩, by norm_num⟩

lemma evaluate_hand_shape {cards : List Card} {s : Nat × List Nat}
    (h : evaluate_hand cards = some s) : Shape s ∧ 1 ≤ s.1 := by
  unfold evaluate_hand at h
  split at h
  · rename_i h5
    have hlen : (sortDesc (cards.map Card.value)).length = 5 := by
      rw [sortDesc_length, List.length_map, h5]
    have hbnd : ∀ x ∈ sortDesc (cards.map Card.value), x ≤ 14 := by
      intro x hx
      obtain ⟨c, _, rfl⟩ := List.mem_map.1 (sortDesc_mem.1 hx)
      exact Card.value_le c
    have := evalCore_shape _ (cards.map Card.suit) hlen hbnd
    rwa [← Option.some_inj.1 h]
  · exact absurd h (by simp)

/-! ### A numeric key linearizing `_compare_hands` on well-formed scores

Tiebreaker entries are card values `≤ 14`, lists have length `≤ 5` fixed by
the category, so reading the padded tiebreaker list as base-15 digits under
the category yields a `Nat` key whose order coincides with `_compare_hands`. -/

/-- Base-15 digit value of a list. -/
def val15 (l : List Nat) : Nat := l.foldl (fun a v => a * 15 + v) 0

/-- The linearizing key (`759375 = 15 ^ 5`). -/
def scoreKey (s : Nat × List Nat) : Nat :=
  s.1 * 759375 + val15 (s.2 ++ List.replicate (5 - s.2.length) 0)

lemma val15_go (a : Nat) (l : List Nat) :
    l.foldl (fun b v => b * 15 + v) a = a * 15 ^ l.length + val15 l := by
  induction l generalizing a with
  | nil => simp [val15]
  | cons x xs ih =>
    have hx : val15 (x :: xs) = x * 15 ^ xs.length + val15 xs := by
      show xs.foldl _ (0 * 15 + x) = _
      rw [show 0 * 15 + x = x by ring, ih x]
    simp only [List.foldl_cons, List.length_cons]
    rw [ih (a * 15 + x), hx]
    ring

lemma val15_cons (x : Nat) (l : List Nat) :
    val15 (x :: l) = x * 15 ^ l.length + val15 l := by
  show l.foldl _ (0 * 15 + x) = _
  rw [show 0 * 15 + x = x by ring, val15_go]

lemma val15_lt (l : List Nat) (hb : ∀ x ∈ l, x ≤ 14) :
    val15 l < 15 ^ l.length := by
  induction l with
  | nil => simp [val15]
  | cons x xs ih =>
    rw [val15_cons, List.length_cons]
    have h1 : x ≤ 14 := hb x (List.mem_cons_self x xs)
    have h2 : val15 xs < 15 ^ xs.length := ih fun y hy => hb y (List.mem_cons_of_mem x hy)
    have h3 : x * 15 ^ xs.length ≤ 14 * 15 ^ xs.length :=
      Nat.mul_le_mul_right _ h1
    have h4 : 15 ^ (xs.length + 1) = 15 * 15 ^ xs.length := by ring
    omega

lemma cmpList_self (l : List Nat) : cmpList l l = 0 := by
  induction l with
  | nil => rfl
  | cons x xs ih => simp [cmpList, ih]

lemma cmpList_antisymm (l1 l2 : List Nat) : cmpList l1 l2 = - cmpList l2 l1 := by
  induction l1 generalizing l2 with
  | nil => cases l2 <;> simp [cmpList]
  | cons x xs ih =>
    cases l2 with
    | nil => simp [cmpList]
    | cons y ys =>
      by_cases h : x = y
      · subst h; simp [cmpList, ih]
      · simp only [cmpList, if_pos h, if_pos (Ne.symm h)]
        ring

lemma cmpList_append_same (r : List Nat) :
    ∀ l1 l2 : List Nat, l1.length = l2.length →
      cmpList (l1 ++ r) (l2 ++ r) = cmpList l1 l2 := by
  intro l1
  induction l1 with
  | nil =>
    intro l2 h
    have : l2 = [] := List.length_eq_zero.1 h.symm
    subst this
    simpa [cmpList] using cmpList_self r
  | cons x xs ih =>
    intro l2 h
    cases l2 with
    | nil => simp at h
    | cons y ys =>
      have hlen : xs.length = ys.length := by simpa using h
      by_cases hxy : x = y
      · subst hxy
        simpa [cmpList] using ih ys hlen
      · simp [cmpList, hxy]

lemma cmpList_key :
    ∀ l1 l2 : List Nat, l1.length = l2.length →
      (∀ x ∈ l1, x ≤ 14) → (∀ x ∈ l2, x ≤ 14) →
      (0 < cmpList l1 l2 ↔ val15 l2 < val15 l1) ∧
      (cmpList l1 l2 = 0 ↔ l1 = l2) := by
  intro l1
  induction l1 with
  | nil =>
    intro l2 h _ _
    have : l2 = [] := List.length_eq_zero.1 h.symm
    subst this
    simp [cmpList]
  | cons x xs ih =>
    intro l2 h hb1 hb2
    cases l2 with
    | nil => simp at h
    | cons y ys =>
      have hlen : xs.length = ys.length := by simpa using h
      have hbx : x ≤ 14 := hb1 x (List.mem_cons_self x xs)
      have hby : y ≤ 14 := hb2 y (List.mem_cons_self y ys)
      have hbxs : ∀ a ∈ xs, a ≤ 14 := fun a ha => hb1 a (List.mem_cons_of_mem x ha)
      have hbys : ∀ a ∈ ys, a ≤ 14 := fun a ha => hb2 a (List.mem_cons_of_mem y ha)
      have hvx : val15 xs < 15 ^ xs.length := val15_lt xs hbxs
      have hvy : val15 ys < 15 ^ ys.length := val15_lt ys hbys
      rw [val15_cons, val15_cons, hlen]
      by_cases hxy : x = y
      · subst hxy
        have hih := ih ys hlen hbxs hbys
        have hred : cmpList (x :: xs) (x :: ys) = cmpList xs ys := by
          simp only [cmpList]
          rw [if_neg (fun hc => hc rfl)]
        rw [hred]
        constructor
        · rw [hih.1]
          omega
        · rw [hih.2]
          simp
      · simp only [cmpList, if_pos hxy]
        constructor
        · constructor
          · intro hpos
            have hyx : y < x := by
              have : (y : Int) < (x : Int) := by omega
              exact_mod_cast this
            have hmul : (y + 1) * 15 ^ ys.length ≤ x * 15 ^ ys.length :=
              Nat.mul_le_mul_right _ hyx
            have hexp : (y + 1) * 15 ^ ys.length = y * 15 ^ ys.length + 15 ^ ys.length := by
              ring
            omega
          · intro hlt
            rw [hlen] at hvx
            rcases Nat.lt_trichotomy x y with hc | hc | hc
            · have hmul : (x + 1) * 15 ^ ys.length ≤ y * 15 ^ ys.length :=
                Nat.mul_le_mul_right _ hc
              have hexp : (x + 1) * 15 ^ ys.length = x * 15 ^ ys.length + 15 ^ ys.length := by
                ring
              omega
            · exact absurd hc hxy
            · have : (y : Int) < (x : Int) := by exact_mod_cast hc
              omega
        · constructor
          · intro h0
            have : (x : Int) = (y : Int) := by omega
            exact absurd (by exact_mod_cast this) hxy
          · intro heq
            have : x = y := by injection heq
            exact absurd this hxy

lemma tbLen_le_five (r : Nat) : tbLen r ≤ 5 := by
  unfold tbLen
  split_ifs <;> omega

lemma padded_length {s : Nat × List Nat} (hs : Shape s) :
    (s.2 ++ List.replicate (5 - s.2.length) 0).length = 5 := by
  have h1 := hs.2.1
  have h2 := tbLen_le_five s.1
  simp only [List.length_append, List.length_replicate]
  omega

lemma padded_bound (s : Nat × List Nat) (hs : ∀ x ∈ s.2, x ≤ 14) :
    ∀ x ∈ s.2 ++ List.replicate (5 - s.2.length) 0, x ≤ 14 := by
  intro x hx
  rcases List.mem_append.1 hx with h | h
  · exact hs x h
  · have := List.eq_of_mem_replicate h
    omega

lemma val15_padded_lt {s : Nat × List Nat} (hs : Shape s) :
    val15 (s.2 ++ List.replicate (5 - s.2.length) 0) < 759375 := by
  have h := val15_lt _ (padded_bound s hs.2.2)
  rw [padded_length hs] at h
  norm_num at h
  exact h

/-- On well-formed scores, `_compare_hands` is positive exactly when the
numeric key is larger, and zero exactly on equal scores. -/
lemma compare_hands_key {s1 s2 : Nat × List Nat} (h1 : Shape s1) (h2 : Shape s2) :
    (0 < compare_hands s1 s2 ↔ scoreKey s2 < scoreKey s1) ∧
    (compare_hands s1 s2 = 0 ↔ s1 = s2) := by
  obtain ⟨r1, t1⟩ := s1
  obtain ⟨r2, t2⟩ := s2
  have hv1 := val15_padded_lt h1
  have hv2 := val15_padded_lt h2
  dsimp only at hv1 hv2
  by_cases hr : r1 = r2
  · subst hr
    have hlen : t1.length = t2.length := by
      have e1 := h1.2.1
      have e2 := h2.2.1
      simp only at e1 e2
      omega
    have hpadlen : (t1 ++ List.replicate (5 - t1.length) 0).length
        = (t2 ++ List.replicate (5 - t2.length) 0).length := by
      rw [padded_length h1, padded_length h2]
    have hkey := cmpList_key (t1 ++ List.replicate (5 - t1.length) 0)
      (t2 ++ List.replicate (5 - t2.length) 0) hpadlen
      (padded_bound (r1, t1) h1.2.2) (padded_bound (r1, t2) h2.2.2)
    have hsame : cmpList (t1 ++ List.replicate (5 - t1.length) 0)
        (t2 ++ List.replicate (5 - t2.length) 0) = cmpList t1 t2 := by
      rw [hlen]
      exact cmpList_append_same _ t1 t2 hlen
    rw [hsame] at hkey
    unfold compare_hands scoreKey
    simp only [ne_eq, not_true_eq_false, if_false, ite_false, if_neg (by simp : ¬ r1 ≠ r1)]
    constructor
    · rw [hkey.1]
      omega
    · rw [hkey.2]
      constructor
      · intro hp
        have : t1 = t2 := by
          rw [hlen] at hp
          exact (List.append_left_inj _).1 hp
        rw [this]
      · intro hp
        have : t1 = t2 := by
          have := congrArg Prod.snd hp
          simpa using this
        rw [this]
    -- done equal-rank case
  · unfold compare_hands scoreKey
    simp only [if_pos (by simpa using hr)]
    constructor
    · constructor
      · intro hpos
        have hlt : r2 < r1 := by
          have : (r2 : Int) < (r1 : Int) := by omega
          exact_mod_cast this
        have hmul : (r2 + 1) * 759375 ≤ r1 * 759375 := Nat.mul_le_mul_right _ hlt
        have hexp : (r2 + 1) * 759375 = r2 * 759375 + 759375 := by ring
        omega
      · intro hlt
        rcases Nat.lt_trichotomy r1 r2 with hc | hc | hc
        · have hmul : (r1 + 1) * 759375 ≤ r2 * 759375 := Nat.mul_le_mul_right _ hc
          have hexp : (r1 + 1) * 759375 = r1 * 759375 + 759375 := by ring
          omega
        · exact absurd hc hr
        · have : (r2 : Int) < (r1 : Int) := by exact_mod_cast hc
          omega
    · constructor
      · intro h0
        have : (r1 : Int) = (r2 : Int) := by omega
        exact absurd (by exact_mod_cast this) hr
      · intro heq
        have : r1 = r2 := by
          have := congrArg Prod.fst heq
          simpa using this
        exact absurd this hr

/-! ### The best-hand search computes the maximum score -/

lemma evaluate_hand_of_length {c : List Card} (h : c.length = 5) :
    evaluate_hand c = some (evalCore (sortDesc (c.map Card.value)) (c.map Card.suit)) := by
  unfold evaluate_hand
  rw [if_pos h]

lemma compare_hands_antisymm (s1 s2 : Nat × List Nat) :
    compare_hands s1 s2 = - compare_hands s2 s1 := by
  unfold compare_hands
  by_cases hr : s1.1 = s2.1
  · rw [if_neg (by simp [hr]), if_neg (by simp [hr])]
    exact cmpList_antisymm _ _
  · rw [if_pos hr, if_pos (Ne.symm hr)]
    omega

lemma foldl_bestStep_spec (l : List (List Card)) (hl : ∀ c ∈ l, c.length = 5) :
    ∀ init, Shape init →
      Shape (l.foldl bestStep init) ∧
      (l.foldl bestStep init = init ∨
        ∃ c ∈ l, evaluate_hand c = some (l.foldl bestStep init)) ∧
      scoreKey init ≤ scoreKey (l.foldl bestStep init) ∧
      ∀ c ∈ l, ∀ e, evaluate_hand c = some e →
        scoreKey e ≤ scoreKey (l.foldl bestStep init) := by
  induction l with
  | nil =>
    intro init hinit
    exact ⟨hinit, Or.inl rfl, le_refl _, by simp⟩
  | cons c cs ih =>
    intro init hinit
    have hc5 : c.length = 5 := hl c (List.mem_cons_self c cs)
    have hcs : ∀ d ∈ cs, d.length = 5 := fun d hd => hl d (List.mem_cons_of_mem c hd)
    obtain ⟨e, he⟩ : ∃ e, evaluate_hand c = some e := ⟨_, evaluate_hand_of_length hc5⟩
    have hse := (evaluate_hand_shape he).1
    have hstep : bestStep init c = if 0 < compare_hands e init then e else init := by
      unfold bestStep
      rw [he]
    have hshape2 : Shape (bestStep init c) := by
      rw [hstep]
      by_cases hcmp : 0 < compare_hands e init
      · rw [if_pos hcmp]; exact hse
      · rw [if_neg hcmp]; exact hinit
    have hkey : scoreKey init ≤ scoreKey (bestStep init c) ∧
        scoreKey e ≤ scoreKey (bestStep init c) := by
      rw [hstep]
      by_cases hcmp : 0 < compare_hands e init
      · rw [if_pos hcmp]
        have := (compare_hands_key hse hinit).1.1 hcmp
        omega
      · rw [if_neg hcmp]
        have : ¬ scoreKey init < scoreKey e := fun hlt =>
          hcmp ((compare_hands_key hse hinit).1.2 hlt)
        omega
    have horig : bestStep init c = init ∨ evaluate_hand c = some (bestStep init c) := by
      rw [hstep]
      by_cases hcmp : 0 < compare_hands e init
      · right; rw [if_pos hcmp]; exact he
      · left; rw [if_neg hcmp]
    have hih := ih hcs (bestStep init c) hshape2
    rw [List.foldl_cons]
    refine ⟨hih.1, ?_, ?_, ?_⟩
    · rcases hih.2.1 with hres | ⟨d, hd, hde⟩
      · rcases horig with h0 | h0
        · left; rw [hres, h0]
        · right
          exact ⟨c, List.mem_cons_self c cs, by rw [hres]; exact h0⟩
      · right; exact ⟨d, List.mem_cons_of_mem c hd, hde⟩
    · exact le_trans hkey.1 hih.2.2.1
    · intro d hd f hf
      rcases List.mem_cons.1 hd with rfl | hd
      · have hfe : f = e := by
          rw [he] at hf
          exact (Option.some_inj.1 hf).symm
        rw [hfe]
        exact le_trans hkey.2 hih.2.2.1
      · exact hih.2.2.2 d hd f hf

lemma best_hand_spec {cards : List Card} {s : Nat × List Nat}
    (h : best_hand cards = some s) :
    5 ≤ cards.length ∧
    (∃ c ∈ cards.sublistsLen 5, evaluate_hand c = some s) ∧
    Shape s ∧ 1 ≤ s.1 ∧
    ∀ c ∈ cards.sublistsLen 5, ∀ e, evaluate_hand c = some e →
      scoreKey e ≤ scoreKey s := by
  have hlen : ¬ cards.length < 5 := by
    intro hlt
    unfold best_hand at h
    rw [if_pos hlt] at h
    exact Option.noConfusion h
  have h5 : 5 ≤ cards.length := by omega
  have hs : s = (cards.sublistsLen 5).foldl bestStep (0, []) := by
    unfold best_hand at h
    rw [if_neg hlen] at h
    exact (Option.some_inj.1 h).symm
  have hl : ∀ c ∈ cards.sublistsLen 5, c.length = 5 := fun c hc =>
    (List.mem_sublistsLen.1 hc).2
  have hspec := foldl_bestStep_spec _ hl (0, []) shape_init
  rw [← hs] at hspec
  have hne : cards.sublistsLen 5 ≠ [] := by
    intro hemp
    have hcl := List.length_sublistsLen 5 cards
    rw [hemp] at hcl
    have := Nat.choose_pos h5
    simp at hcl
    omega
  obtain ⟨c0, hc0⟩ := List.exists_mem_of_ne_nil _ hne
  obtain ⟨e0, he0⟩ : ∃ e, evaluate_hand c0 = some e :=
    ⟨_, evaluate_hand_of_length (hl c0 hc0)⟩
  have hkey0 := hspec.2.2.2 c0 hc0 e0 he0
  have hshape0 := evaluate_hand_shape he0
  have hmem : ∃ c ∈ cards.sublistsLen 5, evaluate_hand c = some s := by
    rcases hspec.2.1 with hinit | hmem
    · exfalso
      have hz : scoreKey (0, []) = 0 := by decide
      have hge : 759375 ≤ scoreKey e0 := by
        unfold scoreKey
        have h1 : 1 ≤ e0.1 := hshape0.2
        have := Nat.mul_le_mul_right 759375 h1
        omega
      rw [hinit, hz] at hkey0
      omega
    · exact hmem
  obtain ⟨cw, hcw, hew⟩ := hmem
  exact ⟨h5, ⟨cw, hcw, hew⟩, hspec.1, (evaluate_hand_shape hew).2, hspec.2.2.2⟩

/-- Claim C1: for every list of 5 to 7 cards, `best_hand` returns the maximum
over all five-card sublists (`C(7,5) = 21` of them for 7 cards) under the
order of `_compare_hands` (category rank first, then the tiebreaker list):
the returned score is the score of some 5-card sublist and compares `≥ 0`
against every 5-card sublist's score. -/
theorem claim_C1_best_hand_is_max (cards : List Card)
    (h5 : 5 ≤ cards.length) (_h7 : cards.length ≤ 7) :
    ∃ s, best_hand cards = some s ∧
      (∃ sub ∈ cards.sublistsLen 5, evaluate_hand sub = some s) ∧
      (∀ sub ∈ cards.sublistsLen 5, ∀ e, evaluate_hand sub = some e →
        0 ≤ compare_hands s e) ∧
      (cards.sublistsLen 5).length = Nat.choose cards.length 5 := by
  obtain ⟨s, hs⟩ : ∃ s, best_hand cards = some s := by
    unfold best_hand
    rw [if_neg (by omega)]
    exact ⟨_, rfl⟩
  have hspec := best_hand_spec hs
  refine ⟨s, hs, hspec.2.1, ?_, List.length_sublistsLen 5 cards⟩
  intro sub hsub e he
  have hkey := hspec.2.2.2.2 sub hsub e he
  have hes := (evaluate_hand_shape he).1
  have hss := hspec.2.2.1
  by_contra hneg
  push_neg at hneg
  have hpos : 0 < compare_hands e s := by
    have := compare_hands_antisymm s e
    omega
  have := (compare_hands_key hes hss).1.1 hpos
  omega

/-- Witness for C1 at a concrete 5-card hand. -/
theorem claim_C1_witness :
    (5 ≤ ([⟨.ace, .spades⟩, ⟨.king, .spades⟩, ⟨.queen, .spades⟩,
        ⟨.jack, .spades⟩, ⟨.n10, .spades⟩] : List Card).length ∧
      ([⟨.ace, .spades⟩, ⟨.king, .spades⟩, ⟨.queen, .spades⟩,
        ⟨.jack, .spades⟩, ⟨.n10, .spades⟩] : List Card).length ≤ 7) ∧
    ∃ s, best_hand [⟨.ace, .spades⟩, ⟨.king, .spades⟩, ⟨.queen, .spades⟩,
        ⟨.jack, .spades⟩, ⟨.n10, .spades⟩] = some s ∧
      (∃ sub ∈ ([⟨.ace, .spades⟩, ⟨.king, .spades⟩, ⟨.queen, .spades⟩,
        ⟨.jack, .spades⟩, ⟨.n10, .spades⟩] : List Card).sublistsLen 5,
        evaluate_hand sub = some s) ∧
      (∀ sub ∈ ([⟨.ace, .spades⟩, ⟨.king, .spades⟩, ⟨.queen, .spades⟩,
        ⟨.jack, .spades⟩, ⟨.n10, .spades⟩] : List Card).sublistsLen 5,
        ∀ e, evaluate_hand sub = some e → 0 ≤ compare_hands s e) ∧
      (([⟨.ace, .spades⟩, ⟨.king, .spades⟩, ⟨.queen, .spades⟩,
        ⟨.jack, .spades⟩, ⟨.n10, .spades⟩] : List Card).sublistsLen 5).length
        = Nat.choose ([⟨.ace, .spades⟩, ⟨.king, .spades⟩, ⟨.queen, .spades⟩,
        ⟨.jack, .spades⟩, ⟨.n10, .spades⟩] : List Card).length 5 :=
  ⟨⟨by decide, by decide⟩,
    claim_C1_best_hand_is_max _ (by decide) (by decide)⟩

/-- Claim C6: hand comparison of two evaluated 7-card hands is antisymmetric,
and compares equal exactly when category and every tiebreaker position
match. -/
theorem claim_C6_compare_antisymmetric (a b : List Card)
    (sa sb : Nat × List Nat) (_ha : a.length = 7) (_hb : b.length = 7)
    (h1 : best_hand a = some sa) (h2 : best_hand b = some sb) :
    compare_hands sa sb = - compare_hands sb sa ∧
    (compare_hands sa sb = 0 ↔ sa.1 = sb.1 ∧ sa.2 = sb.2) := by
  have hsa := (best_hand_spec h1).2.2.1
  have hsb := (best_hand_spec h2).2.2.1
  refine ⟨compare_hands_antisymm sa sb, ?_⟩
  rw [(compare_hands_key hsa hsb).2]
  constructor
  · intro h
    rw [h]
    exact ⟨rfl, rfl⟩
  · intro h
    obtain ⟨hr, ht⟩ := h
    obtain ⟨r1, t1⟩ := sa
    obtain ⟨r2, t2⟩ := sb
    simp only at hr ht
    rw [hr, ht]

set_option maxRecDepth 8000 in
/-- Witness for C6 at two concrete 7-card hands (a royal flush and an
ace-high hand). -/
theorem claim_C6_witness :
    (([⟨.ace, .spades⟩, ⟨.king, .spades⟩, ⟨.queen, .spades⟩, ⟨.jack, .spades⟩,
        ⟨.n10, .spades⟩, ⟨.n2, .hearts⟩, ⟨.n3, .clubs⟩] : List Card).length = 7 ∧
      ([⟨.ace, .spades⟩, ⟨.king, .spades⟩, ⟨.queen, .hearts⟩, ⟨.n7, .clubs⟩,
        ⟨.n10, .spades⟩, ⟨.n2, .hearts⟩, ⟨.n3, .clubs⟩] : List Card).length = 7 ∧
      best_hand [⟨.ace, .spades⟩, ⟨.king, .spades⟩, ⟨.queen, .spades⟩,
        ⟨.jack, .spades⟩, ⟨.n10, .spades⟩, ⟨.n2, .hearts⟩, ⟨.n3, .clubs⟩]
        = some (10, [14, 13, 12, 11, 10]) ∧
      best_hand [⟨.ace, .spades⟩, ⟨.king, .spades⟩, ⟨.queen, .hearts⟩,
        ⟨.n7, .clubs⟩, ⟨.n10, .spades⟩, ⟨.n2, .hearts⟩, ⟨.n3, .clubs⟩]
        = some (1, [14, 13, 12, 10, 7])) ∧
    (compare_hands (10, [14, 13, 12, 11, 10]) (1, [14, 13, 12, 10, 7])
        = - compare_hands (1, [14, 13, 12, 10, 7]) (10, [14, 13, 12, 11, 10]) ∧
      (compare_hands (10, [14, 13, 12, 11, 10]) (1, [14, 13, 12, 10, 7]) = 0 ↔
        (10 : Nat) = 1 ∧ [14, 13, 12, 11, 10] = [14, 13, 12, 10, 7])) := by
  refine ⟨⟨by decide, by decide, by decide, by decide⟩, ?_⟩
  exact claim_C6_compare_antisymmetric
    [⟨.ace, .spades⟩, ⟨.king, .spades⟩, ⟨.queen, .spades⟩, ⟨.jack, .spades⟩,
      ⟨.n10, .spades⟩, ⟨.n2, .hearts⟩, ⟨.n3, .clubs⟩]
    [⟨.ace, .spades⟩, ⟨.king, .spades⟩, ⟨.queen, .hearts⟩, ⟨.n7, .clubs⟩,
      ⟨.n10, .spades⟩, ⟨.n2, .hearts⟩, ⟨.n3, .clubs⟩]
    (10, [14, 13, 12, 11, 10]) (1, [14, 13, 12, 10, 7])
    (by decide) (by decide) (by decide) (by decide)

/-- Claim C2: a wheel hand (values A,2,3,4,5, suits not all equal) evaluates
to the STRAIGHT category with tiebreakers `[5, 4, 3, 2, 1]` (the ace anchors
low); it compares strictly below any 6-high straight and strictly above any
one-pair score. -/
theorem claim_C2_wheel_straight (cards : List Card)
    (hv : sortDesc (cards.map Card.value) = [14, 5, 4, 3, 2])
    (hs : (cards.map Card.suit).dedup.length ≠ 1) :
    evaluate_hand cards = some (5, [5, 4, 3, 2, 1]) ∧
    (∀ tb : List Nat, compare_hands (5, [5, 4, 3, 2, 1]) (5, 6 :: tb) < 0) ∧
    (∀ cs : List Card, ∀ tb : List Nat, evaluate_hand cs = some (2, tb) →
      0 < compare_hands (5, [5, 4, 3, 2, 1]) (2, tb)) := by
  refine ⟨?_, ?_, ?_⟩
  · have h5 : cards.length = 5 := by
      have hl := sortDesc_length (cards.map Card.value)
      rw [hv] at hl
      simpa using hl.symm
    rw [evaluate_hand_of_length h5, hv]
    have hflush : ((cards.map Card.suit).dedup.length == 1) = false := by
      simpa using hs
    simp only [evalCore, hflush, Bool.false_and, Bool.if_false_left,
      Bool.and_eq_true, Bool.not_eq_true]
    norm_num
    decide
  · intro tb
    show compare_hands (5, [5, 4, 3, 2, 1]) (5, 6 :: tb) < 0
    unfold compare_hands
    rw [if_neg (fun hc => hc rfl)]
    show cmpList (5 :: [4, 3, 2, 1]) (6 :: tb) < 0
    unfold cmpList
    rw [if_pos (by omega)]
    omega
  · intro cs tb _
    show 0 < compare_hands (5, [5, 4, 3, 2, 1]) (2, tb)
    unfold compare_hands
    rw [if_pos (by omega)]
    omega

/-- Witness for C2 at the concrete hand A♠ 2♥ 3♥ 4♥ 5♥. -/
theorem claim_C2_witness :
    (sortDesc (([⟨.ace, .spades⟩, ⟨.n2, .hearts⟩, ⟨.n3, .hearts⟩,
        ⟨.n4, .hearts⟩, ⟨.n5, .hearts⟩] : List Card).map Card.value)
        = [14, 5, 4, 3, 2] ∧
      (([⟨.ace, .spades⟩, ⟨.n2, .hearts⟩, ⟨.n3, .hearts⟩,
        ⟨.n4, .hearts⟩, ⟨.n5, .hearts⟩] : List Card).map Card.suit).dedup.length ≠ 1) ∧
    evaluate_hand [⟨.ace, .spades⟩, ⟨.n2, .hearts⟩, ⟨.n3, .hearts⟩,
        ⟨.n4, .hearts⟩, ⟨.n5, .hearts⟩] = some (5, [5, 4, 3, 2, 1]) ∧
    (∀ tb : List Nat, compare_hands (5, [5, 4, 3, 2, 1]) (5, 6 :: tb) < 0) ∧
    (∀ cs : List Card, ∀ tb : List Nat, evaluate_hand cs = some (2, tb) →
      0 < compare_hands (5, [5, 4, 3, 2, 1]) (2, tb)) :=
  ⟨⟨by decide, by decide⟩,
    claim_C2_wheel_straight _ (by decide) (by decide)⟩

/-! ## Win probability (src/game/probability.py)

The Monte-Carlo trials consume a random shuffle of the remaining pool per
trial; the shuffles are passed in as an explicit list of decks, one per
trial, so `simulations = shuffles.length`.  Python floats are modelled as
exact rationals. -/

/-- Python list `<` on integer lists (true lexicographic order). -/
def pyListLt : List Nat → List Nat → Bool
  | _, [] => false
  | [], _ :: _ => true
  | x :: xs, y :: ys => decide (x < y) || (x == y && pyListLt xs ys)

/-- The remaining-card pool: all 52 cards minus those already seen, built
suit-major exactly as in the source loops. -/
def remainingCards (used : List Card) : List Card :=
  SUITS.flatMap (fun s =>
    (RANKS.filter (fun r => !(used.contains ⟨r, s⟩))).map (fun r => ⟨r, s⟩))

/-- Deal `numOpp` two-card opponent hands off the top of the shuffled deck. -/
def dealOpps : List Card → Nat → List (List Card)
  | _, 0 => []
  | d, n + 1 => d.take 2 :: dealOpps (d.drop 2) n

/-- Classification of one Monte-Carlo trial. -/
inductive Outcome
  | win | tie | loss
deriving DecidableEq, Repr

/-- The best-opponent fold of `calculate_win_probability`: keep the opponent
score that is greater by rank, or by Python list comparison of the
tiebreakers at equal rank. -/
def bestOppFold (simCommunity : List Card) (hands : List (List Card)) :
    Nat × List Nat :=
  hands.foldl (fun acc h =>
    match best_hand (h ++ simCommunity) with
    | some s =>
      if decide (acc.1 < s.1) || (s.1 == acc.1 && pyListLt acc.2 s.2) then s else acc
    | none => acc) (0, [])

/-- One Monte-Carlo trial, classified against one shuffled remaining-pool
deck; `none` models the `IndexError` raised when the deck is too short. -/
def simTrial (hole community : List Card) (numOpp : Nat) (deck : List Card) :
    Option Outcome :=
  if deck.length < (5 - community.length) + 2 * numOpp then none
  else
    let simCommunity := community ++ deck.take (5 - community.length)
    let opps := dealOpps (deck.drop (5 - community.length)) numOpp
    match best_hand (hole ++ simCommunity) with
    | none => none
    | some our =>
      let bestOpp := bestOppFold simCommunity opps
      some (if bestOpp.1 < our.1 then .win
        else if our.1 < bestOpp.1 then .loss
        else if pyListLt bestOpp.2 our.2 then .win
        else if pyListLt our.2 bestOpp.2 then .loss
        else .tie)

/-- All-or-nothing `Option`-valued map (a loop that can raise). -/
def optionMapList {α β : Type} (f : α → Option β) : List α → Option (List β)
  | [] => some []
  | x :: xs =>
    match f x, optionMapList f xs with
    | some y, some ys => some (y :: ys)
    | _, _ => none

/-- The per-trial outcomes over the given shuffles. -/
def outcomesOf (hole community : List Card) (numOpp : Nat)
    (shuffles : List (List Card)) : Option (List Outcome) :=
  optionMapList (simTrial hole community numOpp) shuffles

/-- Python `round(x, 1)` modelled on exact rationals. -/
def round1 (q : ℚ) : ℚ := ((round (q * 10) : ℤ) : ℚ) / 10

/-- The win/tie/lose percentage triple returned by the estimator. -/
structure WinProb where
  win : ℚ
  tie : ℚ
  lose : ℚ
deriving DecidableEq, Repr

/-- `calculate_win_probability`: the neutral zero triple when not exactly two
hole cards, otherwise the rounded win/tie/lose percentages over the trials;
`none` models the exceptions (too-short deck, or zero trials hitting the
division). -/
def calculate_win_probability (hole community : List Card) (numOpp : Nat)
    (shuffles : List (List Card)) : Option WinProb :=
  if hole.length ≠ 2 then some ⟨0, 0, 0⟩
  else
    match outcomesOf hole community numOpp shuffles with
    | none => none
    | some os =>
      if shuffles.length = 0 then none
      else
        some ⟨round1 ((os.count .win : ℚ) * 100 / (shuffles.length : ℚ)),
          round1 ((os.count .tie : ℚ) * 100 / (shuffles.length : ℚ)),
          round1 ((os.count .loss : ℚ) * 100 / (shuffles.length : ℚ))⟩

/-- The category rank of the best hand (`0` when undefined). -/
def bestRankNat (cs : List Card) : Nat := ((best_hand cs).getD (0, [])).1

/-- The result record of `get_outs` (`current_hand` is absent in the neutral
early return). -/
structure OutsResult where
  outs : Nat
  odds : ℚ
  draws : List String
  current_hand : Option String
deriving DecidableEq, Repr

/-- One step of the outs-counting loop of `get_outs`: a remaining card is an
out when adding it strictly increases the best-hand category rank. -/
def outsStep (all : List Card) (cur : Nat) (acc : List Card × List String)
    (c : Card) : List Card × List String :=
  match best_hand (all ++ [c]) with
  | some nw =>
    if cur < nw.1 then
      (acc.1 ++ [c],
        if (rankName nw.1) ∈ acc.2 then acc.2 else acc.2 ++ [rankName nw.1])
    else acc
  | none => acc

/-- `get_outs`: neutral zero result unless exactly 3 or 4 community cards;
otherwise counts the remaining cards that strictly improve the category,
with the classic two-street odds formula after the flop and the simple ratio
after the turn.  `none` models the `ValueError` from `best_hand` when fewer
than five cards are known. -/
def get_outs (hole community : List Card) : Option OutsResult :=
  if community.length < 3 ∨ 5 ≤ community.length then some ⟨0, 0, [], none⟩
  else
    let all := hole ++ community
    match best_hand all with
    | none => none
    | some cur =>
      let st := (remainingCards all).foldl (outsStep all cur.1) ([], [])
      let numOuts := st.1.length
      let odds : ℚ :=
        if 5 - community.length = 2 then
          round1 ((1 - (((47 : ℚ) - numOuts) / 47 * (((46 : ℚ) - numOuts) / 46))) * 100)
        else
          round1 (((numOuts : ℚ) / ((52 : ℚ) - (all.length : ℚ))) * 100)
      some ⟨numOuts, odds, st.2, some (rankName cur.1)⟩

/-! ### Facts about the estimator -/

lemma best_hand_isSome {cs : List Card} (h : 5 ≤ cs.length) :
    ∃ s, best_hand cs = some s := by
  unfold best_hand
  rw [if_neg (by omega)]
  exact ⟨_, rfl⟩

lemma outcome_count_sum (os : List Outcome) :
    os.count .win + os.count .tie + os.count .loss = os.length := by
  induction os with
  | nil => rfl
  | cons o t ih =>
    cases o <;> simp [List.count_cons] <;> omega

lemma simTrial_isSome (hole community : List Card) (numOpp : Nat)
    (deck : List Card) (hh : hole.length = 2)
    (hd : (5 - community.length) + 2 * numOpp ≤ deck.length) :
    ∃ o, simTrial hole community numOpp deck = some o := by
  unfold simTrial
  rw [if_neg (by omega)]
  have hlen : 5 ≤ (hole ++ (community ++ deck.take (5 - community.length))).length := by
    simp only [List.length_append, List.length_take]
    omega
  obtain ⟨s, hs⟩ := best_hand_isSome hlen
  simp only [hs]
  exact ⟨_, rfl⟩

lemma optionMapList_all {α β : Type} (f : α → Option β) (l : List α)
    (h : ∀ x ∈ l, ∃ y, f x = some y) :
    ∃ ys, optionMapList f l = some ys ∧ ys.length = l.length := by
  induction l with
  | nil => exact ⟨[], rfl, rfl⟩
  | cons x xs ih =>
    obtain ⟨y, hy⟩ := h x (List.mem_cons_self x xs)
    obtain ⟨ys, hys, hl⟩ := ih fun a ha => h a (List.mem_cons_of_mem x ha)
    refine ⟨y :: ys, ?_, by simp [hl]⟩
    unfold optionMapList
    rw [hy, hys]

lemma round1_abs (q : ℚ) : |round1 q - q| ≤ 1 / 20 := by
  have key : round1 q - q = (((round (q * 10) : ℤ) : ℚ) - q * 10) / 10 := by
    unfold round1
    ring
  rw [key, abs_div]
  have h10 : |(10 : ℚ)| = 10 := by norm_num
  rw [h10]
  have h := abs_sub_round (q * 10)
  rw [abs_sub_comm] at h
  linarith

/-- Claim C3: with exactly two hole cards and sufficiently long shuffled
decks, every trial classifies as exactly one of win/tie/loss, the three
counts sum to the simulation count, and the three rounded percentages sum to
100 within rounding error (`3 · 1/20`). -/
theorem claim_C3_partition_sums (hole community : List Card) (numOpp : Nat)
    (shuffles : List (List Card))
    (hh : hole.length = 2)
    (hd : ∀ d ∈ shuffles, (5 - community.length) + 2 * numOpp ≤ d.length)
    (hne : shuffles ≠ []) :
    ∃ os, outcomesOf hole community numOpp shuffles = some os ∧
      os.length = shuffles.length ∧
      os.count .win + os.count .tie + os.count .loss = shuffles.length ∧
      calculate_win_probability hole community numOpp shuffles =
        some ⟨round1 ((os.count .win : ℚ) * 100 / (shuffles.length : ℚ)),
          round1 ((os.count .tie : ℚ) * 100 / (shuffles.length : ℚ)),
          round1 ((os.count .loss : ℚ) * 100 / (shuffles.length : ℚ))⟩ ∧
      |round1 ((os.count .win : ℚ) * 100 / (shuffles.length : ℚ))
        + round1 ((os.count .tie : ℚ) * 100 / (shuffles.length : ℚ))
        + round1 ((os.count .loss : ℚ) * 100 / (shuffles.length : ℚ)) - 100|
        ≤ 3 / 20 := by
  obtain ⟨os, hos, hlen⟩ := optionMapList_all _ shuffles
    (fun d hdm => simTrial_isSome hole community numOpp d hh (hd d hdm))
  have hsum := outcome_count_sum os
  have hn0 : shuffles.length ≠ 0 := fun h0 => hne (List.length_eq_zero.1 h0)
  refine ⟨os, hos, hlen, by omega, ?_, ?_⟩
  · unfold calculate_win_probability
    rw [if_neg (by omega)]
    unfold outcomesOf
    rw [hos]
    simp only [if_neg hn0]
  · set n : ℚ := (shuffles.length : ℚ) with hn
    set qw : ℚ := (os.count Outcome.win : ℚ) * 100 / n with hqw
    set qt : ℚ := (os.count Outcome.tie : ℚ) * 100 / n with hqt
    set ql : ℚ := (os.count Outcome.loss : ℚ) * 100 / n with hql
    have hnz : n ≠ 0 := by
      rw [hn]
      exact_mod_cast hn0
    have hq : qw + qt + ql = 100 := by
      rw [hqw, hqt, hql]
      have hcast : (os.count Outcome.win : ℚ) + (os.count Outcome.tie : ℚ)
          + (os.count Outcome.loss : ℚ) = n := by
        rw [hn, ← hlen]
        exact_mod_cast hsum
      field_simp
      linarith [hcast]
    have b1 := round1_abs qw
    have b2 := round1_abs qt
    have b3 := round1_abs ql
    have habs : |round1 qw + round1 qt + round1 ql - 100|
        = |(round1 qw - qw) + ((round1 qt - qt) + (round1 ql - ql))| := by
      rw [← hq]
      ring_nf
    rw [habs]
    calc |(round1 qw - qw) + ((round1 qt - qt) + (round1 ql - ql))|
        ≤ |round1 qw - qw| + |(round1 qt - qt) + (round1 ql - ql)| := abs_add _ _
      _ ≤ |round1 qw - qw| + (|round1 qt - qt| + |round1 ql - ql|) := by
          have := abs_add (round1 qt - qt) (round1 ql - ql)
          linarith
      _ ≤ 3 / 20 := by linarith

/-- Witness for C3 at a concrete query (two hole cards, no community cards,
one opponent, one trial). -/
theorem claim_C3_witness :
    (([⟨.ace, .spades⟩, ⟨.king, .spades⟩] : List Card).length = 2 ∧
      (∀ d ∈ [[⟨.queen, .spades⟩, ⟨.jack, .spades⟩, ⟨.n10, .spades⟩,
        ⟨.n2, .hearts⟩, ⟨.n3, .clubs⟩, ⟨.n4, .clubs⟩, ⟨.n5, .clubs⟩]],
        (5 - ([] : List Card).length) + 2 * 1 ≤ (d : List Card).length) ∧
      ([[⟨.queen, .spades⟩, ⟨.jack, .spades⟩, ⟨.n10, .spades⟩,
        ⟨.n2, .hearts⟩, ⟨.n3, .clubs⟩, ⟨.n4, .clubs⟩, ⟨.n5, .clubs⟩]] :
        List (List Card)) ≠ []) ∧
    ∃ os, outcomesOf [⟨.ace, .spades⟩, ⟨.king, .spades⟩] [] 1
        [[⟨.queen, .spades⟩, ⟨.jack, .spades⟩, ⟨.n10, .spades⟩,
          ⟨.n2, .hearts⟩, ⟨.n3, .clubs⟩, ⟨.n4, .clubs⟩, ⟨.n5, .clubs⟩]] = some os ∧
      os.length = 1 ∧
      os.count .win + os.count .tie + os.count .loss = 1 ∧
      calculate_win_probability [⟨.ace, .spades⟩, ⟨.king, .spades⟩] [] 1
        [[⟨.queen, .spades⟩, ⟨.jack, .spades⟩, ⟨.n10, .spades⟩,
          ⟨.n2, .hearts⟩, ⟨.n3, .clubs⟩, ⟨.n4, .clubs⟩, ⟨.n5, .clubs⟩]] =
        some ⟨round1 ((os.count .win : ℚ) * 100 / 1),
          round1 ((os.count .tie : ℚ) * 100 / 1),
          round1 ((os.count .loss : ℚ) * 100 / 1)⟩ ∧
      |round1 ((os.count .win : ℚ) * 100 / 1)
        + round1 ((os.count .tie : ℚ) * 100 / 1)
        + round1 ((os.count .loss : ℚ) * 100 / 1) - 100| ≤ 3 / 20 := by
  refine ⟨⟨by decide, by decide, by decide⟩, ?_⟩
  have h := claim_C3_partition_sums [⟨.ace, .spades⟩, ⟨.king, .spades⟩] [] 1
    [[⟨.queen, .spades⟩, ⟨.jack, .spades⟩, ⟨.n10, .spades⟩,
      ⟨.n2, .hearts⟩, ⟨.n3, .clubs⟩, ⟨.n4, .clubs⟩, ⟨.n5, .clubs⟩]]
    (by decide) (by decide) (by decide)
  simpa using h

/-- Claim C4 (amended): the win-probability estimate with fewer than two hole
cards returns the neutral zero triple and never errors; `get_outs`, however,
guards only on the community-card count: outside 3–4 community cards it
returns the neutral zero result, but with 3 or 4 community cards it
evaluates regardless of the hole-card count and errors when fewer than five
total cards are known. -/
theorem claim_C4_neutral_results (hole community : List Card) :
    (∀ (numOpp : Nat) (shuffles : List (List Card)), hole.length < 2 →
      calculate_win_probability hole community numOpp shuffles = some ⟨0, 0, 0⟩) ∧
    (community.length < 3 ∨ 5 ≤ community.length →
      get_outs hole community = some ⟨0, 0, [], none⟩) ∧
    ((community.length = 3 ∨ community.length = 4) →
      hole.length + community.length < 5 →
      get_outs hole community = none) := by
  refine ⟨?_, ?_, ?_⟩
  · intro numOpp shuffles h
    unfold calculate_win_probability
    rw [if_pos (by omega)]
  · intro hc
    unfold get_outs
    rw [if_pos hc]
  · intro hc hlen
    unfold get_outs
    rw [if_neg (by omega)]
    have hnone : best_hand (hole ++ community) = none := by
      unfold best_hand
      rw [if_pos (by simp only [List.length_append]; omega)]
    simp only [hnone]

/-- Counterexample to C4 as stated: with zero hole cards and three community
cards, `get_outs` raises (modelled `none`) instead of returning an
empty/neutral result. -/
theorem claim_C4_counterexample :
    get_outs ([] : List Card)
      [⟨.queen, .spades⟩, ⟨.jack, .spades⟩, ⟨.n10, .spades⟩] = none := by
  decide

/-- Witness for the amended C4 at concrete inputs. -/
theorem claim_C4_witness :
    (([] : List Card).length < 2 ∧
      calculate_win_probability ([] : List Card) [] 1 [] = some ⟨0, 0, 0⟩) ∧
    get_outs ([] : List Card) [] = some ⟨0, 0, [], none⟩ := by
  have h := claim_C4_neutral_results ([] : List Card) []
  exact ⟨⟨by decide, h.1 1 [] (by decide)⟩, h.2.1 (Or.inl (by decide))⟩

/-! ### Outs counting (C7) -/

lemma outsStep_fold_length (all : List Card) (cur : Nat) (h5 : 5 ≤ all.length)
    (hcur : bestRankNat all = cur) :
    ∀ (rem : List Card) (acc : List Card × List String),
      ((rem.foldl (outsStep all cur) acc).1).length
        = acc.1.length + rem.countP (fun c => decide (bestRankNat all
            < bestRankNat (all ++ [c]))) := by
  intro rem
  induction rem with
  | nil => intro acc; simp
  | cons c cs ih =>
    intro acc
    rw [List.foldl_cons]
    have hbig : 5 ≤ (all ++ [c]).length := by
      simp only [List.length_append, List.length_cons]
      omega
    obtain ⟨s, hs⟩ := best_hand_isSome hbig
    have hrank : bestRankNat (all ++ [c]) = s.1 := by
      unfold bestRankNat
      rw [hs]
      rfl
    have hstep : outsStep all cur acc c =
        (if cur < s.1 then
          (acc.1 ++ [c],
            if (rankName s.1) ∈ acc.2 then acc.2 else acc.2 ++ [rankName s.1])
        else acc) := by
      unfold outsStep
      rw [hs]
    rw [ih (outsStep all cur acc c), List.countP_cons, hstep]
    by_cases hlt : cur < s.1
    · rw [if_pos hlt]
      have hd : decide (bestRankNat all < bestRankNat (all ++ [c])) = true := by
        rw [hrank, hcur]
        exact decide_eq_true hlt
      rw [hd]
      simp only [eq_self_iff_true, if_true, List.length_append, List.length_cons,
        List.length_nil]
      omega
    · rw [if_neg hlt]
      have hd : decide (bestRankNat all < bestRankNat (all ++ [c])) = false := by
        rw [hrank, hcur]
        exact decide_eq_false hlt
      rw [hd]
      simp

/-- Claim C7: with two hole cards and 3 or 4 community cards, `get_outs`
succeeds and its outs count equals the number of remaining unseen cards whose
hypothetical addition strictly increases the best-hand category rank; with any
other community-card count it returns the neutral zero-outs result. -/
theorem claim_C7_outs_count (hole community : List Card) (hh : hole.length = 2) :
    ((community.length = 3 ∨ community.length = 4) →
      ∃ res, get_outs hole community = some res ∧
        res.outs = ((remainingCards (hole ++ community)).filter
          (fun c => decide (bestRankNat (hole ++ community)
            < bestRankNat (hole ++ community ++ [c])))).length) ∧
    (community.length ≠ 3 → community.length ≠ 4 →
      get_outs hole community = some ⟨0, 0, [], none⟩) := by
  constructor
  · intro hc
    have h5 : 5 ≤ (hole ++ community).length := by
      simp only [List.length_append]
      omega
    obtain ⟨cur, hcur⟩ := best_hand_isSome h5
    have hrank : bestRankNat (hole ++ community) = cur.1 := by
      unfold bestRankNat
      rw [hcur]
      rfl
    unfold get_outs
    rw [if_neg (by omega)]
    simp only [hcur]
    refine ⟨_, rfl, ?_⟩
    have hfold := outsStep_fold_length (hole ++ community) cur.1 h5 hrank
      (remainingCards (hole ++ community)) ([], [])
    simp only [List.length_nil, Nat.zero_add] at hfold
    rw [hfold, List.countP_eq_length_filter]
  · intro h3 h4
    unfold get_outs
    rw [if_pos (by omega)]

/-- Witness for C7 at a concrete flop query. -/
theorem claim_C7_witness :
    (([⟨.ace, .spades⟩, ⟨.king, .spades⟩] : List Card).length = 2) ∧
    ((([⟨.queen, .spades⟩, ⟨.jack, .spades⟩, ⟨.n2, .hearts⟩] : List Card).length = 3 ∨
        ([⟨.queen, .spades⟩, ⟨.jack, .spades⟩, ⟨.n2, .hearts⟩] : List Card).length = 4) →
      ∃ res, get_outs [⟨.ace, .spades⟩, ⟨.king, .spades⟩]
          [⟨.queen, .spades⟩, ⟨.jack, .spades⟩, ⟨.n2, .hearts⟩] = some res ∧
        res.outs = ((remainingCards ([⟨.ace, .spades⟩, ⟨.king, .spades⟩] ++
            [⟨.queen, .spades⟩, ⟨.jack, .spades⟩, ⟨.n2, .hearts⟩])).filter
          (fun c => decide (bestRankNat ([⟨.ace, .spades⟩, ⟨.king, .spades⟩] ++
              [⟨.queen, .spades⟩, ⟨.jack, .spades⟩, ⟨.n2, .hearts⟩])
            < bestRankNat ([⟨.ace, .spades⟩, ⟨.king, .spades⟩] ++
              [⟨.queen, .spades⟩, ⟨.jack, .spades⟩, ⟨.n2, .hearts⟩] ++ [c])))).length) ∧
    (([] : List Card).length ≠ 3 → ([] : List Card).length ≠ 4 →
      get_outs [⟨.ace, .spades⟩, ⟨.king, .spades⟩] ([] : List Card)
        = some ⟨0, 0, [], none⟩) := by
  have h1 := claim_C7_outs_count [⟨.ace, .spades⟩, ⟨.king, .spades⟩]
    [⟨.queen, .spades⟩, ⟨.jack, .spades⟩, ⟨.n2, .hearts⟩] (by decide)
  have h2 := claim_C7_outs_count [⟨.ace, .spades⟩, ⟨.king, .spades⟩]
    ([] : List Card) (by decide)
  exact ⟨by decide, h1.1, h2.2⟩

/-! ## Multi-player ranking (compare_players)

`compare_players` evaluates every player's best hand, sorts descending by the
Python tuple key `(rank, tiebreakers)` and assigns standard competition rank
positions (equal scores share a position). -/

lemma pyListLt_irrefl (l : List Nat) : pyListLt l l = false := by
  induction l with
  | nil => rfl
  | cons x xs ih => simp [pyListLt, ih]

lemma pyListLt_trans : ∀ a b c : List Nat,
    pyListLt a b = true → pyListLt b c = true → pyListLt a c = true := by
  intro a
  induction a with
  | nil =>
    intro b c hab hbc
    cases b with
    | nil => simp [pyListLt] at hab
    | cons y ys =>
      cases c with
      | nil => simp [pyListLt] at hbc
      | cons z zs => rfl
  | cons x xs ih =>
    intro b c hab hbc
    cases b with
    | nil => simp [pyListLt] at hab
    | cons y ys =>
      cases c with
      | nil => simp [pyListLt] at hbc
      | cons z zs =>
        simp only [pyListLt, Bool.or_eq_true, Bool.and_eq_true,
          decide_eq_true_eq, beq_iff_eq] at hab hbc ⊢
        rcases hab with h1 | ⟨he1, h1⟩ <;> rcases hbc with h2 | ⟨he2, h2⟩
        · left; omega
        · left; omega
        · left; omega
        · right; exact ⟨by omega, ih ys zs h1 h2⟩

lemma pyListLt_asymm (a b : List Nat) (h : pyListLt a b = true) :
    pyListLt b a = false := by
  cases hba : pyListLt b a with
  | false => rfl
  | true =>
    have := pyListLt_trans a b a h hba
    rw [pyListLt_irrefl] at this
    exact Bool.noConfusion this

lemma pyListLt_trichotomy : ∀ a b : List Nat,
    pyListLt a b = true ∨ a = b ∨ pyListLt b a = true := by
  intro a
  induction a with
  | nil =>
    intro b
    cases b with
    | nil => right; left; rfl
    | cons y ys => left; rfl
  | cons x xs ih =>
    intro b
    cases b with
    | nil => right; right; rfl
    | cons y ys =>
      rcases Nat.lt_trichotomy x y with h | h | h
      · left; simp [pyListLt, h]
      · subst h
        rcases ih ys with h1 | h1 | h1
        · left; simp [pyListLt, h1]
        · right; left; rw [h1]
        · right; right; simp [pyListLt, h1]
      · right; right; simp [pyListLt, h]

/-- Python tuple `<` on `(rank, tiebreakers)` keys (the sort key of
`compare_players`). -/
def scoreLtB (a b : Nat × List Nat) : Bool :=
  decide (a.1 < b.1) || (a.1 == b.1 && pyListLt a.2 b.2)

lemma scoreLtB_irrefl (a : Nat × List Nat) : scoreLtB a a = false := by
  simp [scoreLtB, pyListLt_irrefl]

lemma scoreLtB_trans {a b c : Nat × List Nat} (hab : scoreLtB a b = true)
    (hbc : scoreLtB b c = true) : scoreLtB a c = true := by
  simp only [scoreLtB, Bool.or_eq_true, Bool.and_eq_true, decide_eq_true_eq,
    beq_iff_eq] at hab hbc ⊢
  rcases hab with h1 | ⟨he1, h1⟩ <;> rcases hbc with h2 | ⟨he2, h2⟩
  · left; omega
  · left; omega
  · left; omega
  · right; exact ⟨by omega, pyListLt_trans _ _ _ h1 h2⟩

lemma scoreLtB_asymm {a b : Nat × List Nat} (h : scoreLtB a b = true) :
    scoreLtB b a = false := by
  cases hba : scoreLtB b a with
  | false => rfl
  | true =>
    have := scoreLtB_trans h hba
    rw [scoreLtB_irrefl] at this
    exact Bool.noConfusion this

lemma scoreLtB_trichotomy (a b : Nat × List Nat) :
    scoreLtB a b = true ∨ a = b ∨ scoreLtB b a = true := by
  obtain ⟨r1, t1⟩ := a
  obtain ⟨r2, t2⟩ := b
  rcases Nat.lt_trichotomy r1 r2 with h | h | h
  · left; simp [scoreLtB, h]
  · subst h
    rcases pyListLt_trichotomy t1 t2 with h1 | h1 | h1
    · left; simp [scoreLtB, h1]
    · right; left; rw [h1]
    · right; right; simp [scoreLtB, h1]
  · right; right; simp [scoreLtB, h]

/-- The descending sort relation of `compare_players` on evaluated entries
`(name, (rank, tiebreakers))`: `a` may precede `b` when `a`'s key is not less
than `b`'s. -/
def evalGe (a b : String × (Nat × List Nat)) : Prop := scoreLtB a.2 b.2 = false

instance : DecidableRel evalGe := fun _ _ => instDecidableEqBool _ _

instance : IsTotal (String × (Nat × List Nat)) evalGe := by
  constructor
  intro a b
  cases hab : scoreLtB a.2 b.2 with
  | false => left; exact hab
  | true => right; exact scoreLtB_asymm hab

instance : IsTrans (String × (Nat × List Nat)) evalGe := by
  constructor
  intro a b c hab hbc
  unfold evalGe at *
  cases hac : scoreLtB a.2 c.2 with
  | false => rfl
  | true =>
    exfalso
    rcases scoreLtB_trichotomy a.2 b.2 with h | h | h
    · rw [hab] at h; exact Bool.noConfusion h
    · rw [← h] at hbc
      rw [hac] at hbc
      exact Bool.noConfusion hbc
    · have := scoreLtB_trans h hac
      rw [hbc] at this
      exact Bool.noConfusion this

/-- The per-player evaluation loop of `compare_players` (`none` models the
`ValueError` when a player has fewer than five cards). -/
def evaluatedOf (ps : List (String × List Card)) :
    Option (List (String × (Nat × List Nat))) :=
  optionMapList (fun p => (best_hand p.2).map (fun s => (p.1, s))) ps

/-- `evaluated.sort(key=lambda x: (x[1], x[2]), reverse=True)`. -/
def sortEval (ev : List (String × (Nat × List Nat))) :
    List (String × (Nat × List Nat)) :=
  List.insertionSort evalGe ev

/-- The rank-position assignment loop of `compare_players`: `i` is the index
in the sorted order, `cur` the current rank position, `prev` the previous
score. -/
def assignRanksAux : List (String × (Nat × List Nat)) → Nat → Nat →
    Option (Nat × List Nat) → List (String × Nat × String)
  | [], _, _, _ => []
  | (n, s) :: rest, i, cur, prev =>
    let cur2 := match prev with
      | some p => if s ≠ p then i + 1 else cur
      | none => cur
    (n, cur2, rankName s.1) :: assignRanksAux rest (i + 1) cur2 (some s)

/-- Competition-rank assignment over the sorted evaluated list. -/
def assignRanks (l : List (String × (Nat × List Nat))) :
    List (String × Nat × String) :=
  assignRanksAux l 0 1 none

/-- `PokerHandEvaluator.compare_players`. -/
def compare_players (ps : List (String × List Card)) :
    Option (List (String × Nat × String)) :=
  (evaluatedOf ps).map (fun ev => assignRanks (sortEval ev))

/-- Score of the sorted entry at index `i`. -/
def scoreAt (L : List (String × (Nat × List Nat))) (i : Nat) : Nat × List Nat :=
  (L.getD i ("", (0, []))).2

/-- Rank position of the result entry at index `i`. -/
def rankAt (R : List (String × Nat × String)) (i : Nat) : Nat :=
  (R.getD i ("", 0, "")).2.1

/-! ### Sortedness helpers for the ranking proof -/

lemma evalGe_refl (a : String × (Nat × List Nat)) : evalGe a a := scoreLtB_irrefl a.2

lemma evalGe_antisymm_score {a b : String × (Nat × List Nat)}
    (h1 : evalGe a b) (h2 : evalGe b a) : a.2 = b.2 := by
  rcases scoreLtB_trichotomy a.2 b.2 with h | h | h
  · rw [h1] at h
    exact Bool.noConfusion h
  · exact h
  · rw [h2] at h
    exact Bool.noConfusion h

/-- Dummy default entry used with `getD`. -/
def dEntry : String × (Nat × List Nat) := ("", (0, []))

lemma sorted_rel_getLast {l : List (String × (Nat × List Nat))}
    (hs : List.Sorted evalGe l) {p} (hp : l.getLast? = some p) :
    ∀ e ∈ l, evalGe e p := by
  induction l with
  | nil => simp at hp
  | cons a t ih =>
    intro e he
    cases t with
    | nil =>
      have hpa : p = a := by
        simp [List.getLast?] at hp
        exact hp.symm
      have : e = a := by simpa using he
      rw [this, hpa]
      exact evalGe_refl a
    | cons b t2 =>
      have hp2 : (b :: t2).getLast? = some p := by
        rwa [List.getLast?_cons_cons] at hp
      rcases List.mem_cons.1 he with rfl | he2
      · have hpmem : p ∈ b :: t2 := List.mem_of_getLast?_eq_some hp2
        exact (List.sorted_cons.1 hs).1 p hpmem
      · exact ih (List.sorted_cons.1 hs).2 hp2 e he2

lemma sorted_take_rel {L : List (String × (Nat × List Nat))}
    (hs : List.Sorted evalGe L) {i j : Nat} (hij : i ≤ j + 1) (hj : j < L.length) :
    ∀ e ∈ L.take i, evalGe e (L.getD j dEntry) := by
  intro e he
  have hsub : e ∈ L.take (j + 1) := by
    have : L.take i = (L.take (j + 1)).take i := by
      rw [List.take_take, min_eq_left hij]
    rw [this] at he
    exact List.take_subset _ _ he
  have htk : L.take (j + 1) = L.take j ++ [L.getD j dEntry] := by
    rw [List.take_succ]
    congr 1
    rw [List.getElem?_eq_getElem hj]
    simp [List.getD_eq_getElem?_getD, List.getElem?_eq_getElem hj]
  have hsorted : List.Sorted evalGe (L.take (j + 1)) :=
    hs.sublist (List.take_sublist _ _)
  rw [htk] at hsorted hsub
  rcases List.mem_append.1 hsub with h | h
  · exact (List.pairwise_append.1 hsorted).2.2 e h _ (List.mem_singleton_self _)
  · have : e = L.getD j dEntry := by simpa using h
    rw [this]
    exact evalGe_refl _
  -- done

lemma sorted_drop_rel {L : List (String × (Nat × List Nat))}
    (hs : List.Sorted evalGe L) {i : Nat} (hi : i < L.length) :
    ∀ e ∈ L.drop i, evalGe (L.getD i dEntry) e := by
  intro e he
  have hdrop : L.drop i = L.getD i dEntry :: L.drop (i + 1) := by
    rw [List.getD_eq_getElem?_getD, List.getElem?_eq_getElem hi]
    simp [List.getElem_cons_drop]
  have hsorted : List.Sorted evalGe (L.drop i) :=
    hs.sublist (List.drop_sublist _ _)
  rw [hdrop] at hsorted he
  rcases List.mem_cons.1 he with rfl | he2
  · exact evalGe_refl _
  · exact (List.sorted_cons.1 hsorted).1 e he2

lemma scoreAt_eq (L : List (String × (Nat × List Nat))) (i : Nat) :
    scoreAt L i = (L.getD i dEntry).2 := rfl

/-- The rank emitted for each element of the sorted tail equals one plus the
number of differing-score entries before it, provided the call-state
invariant of the assignment loop holds for the processed prefix. -/
lemma assignRanksAux_spec :
    ∀ (rest pre : List (String × (Nat × List Nat))) (cur : Nat)
      (prev : Option (Nat × List Nat)),
      List.Sorted evalGe (pre ++ rest) →
      (pre = [] → cur = 1 ∧ prev = none) →
      (∀ p, pre.getLast? = some p → prev = some p.2 ∧
        cur = 1 + pre.countP (fun e => !(e.2 == p.2))) →
      ∀ k, k < rest.length →
        rankAt (assignRanksAux rest pre.length cur prev) k =
          1 + ((pre ++ rest.take k).countP
            (fun e => !(e.2 == (rest.getD k dEntry).2))) := by
  intro rest
  induction rest with
  | nil =>
    intro pre cur prev _ _ _ k hk
    simp at hk
  | cons hd tl ih =>
    intro pre cur prev hsort hnil hlast k hk
    obtain ⟨n, s⟩ := hd
    have hstep : assignRanksAux ((n, s) :: tl) pre.length cur prev
        = (n, 1 + pre.countP (fun e => !(e.2 == s)), rankName s.1)
          :: assignRanksAux tl (pre.length + 1)
              (1 + pre.countP (fun e => !(e.2 == s))) (some s) := by
      rcases hpre : pre.getLast? with _ | p
      · have hpre0 : pre = [] := List.getLast?_eq_none_iff.1 hpre
        obtain ⟨hc1, hprev⟩ := hnil hpre0
        subst hprev
        subst hc1
        simp [assignRanksAux, hpre0]
      · obtain ⟨hprev, hcur⟩ := hlast p hpre
        subst hprev
        by_cases hsp : s = p.2
        · simp only [assignRanksAux]
          rw [if_neg (by simpa using hsp), hcur, hsp]
        · simp only [assignRanksAux]
          rw [if_pos (by simpa using hsp)]
          have hall : ∀ e ∈ pre, (!(e.2 == s)) = true := by
            intro e he
            have hsortpre : List.Sorted evalGe pre :=
              hsort.sublist (List.sublist_append_left pre ((n, s) :: tl))
            have h1 : evalGe e p := sorted_rel_getLast hsortpre hpre e he
            have h2 : evalGe p (n, s) := by
              have hp_mem : p ∈ pre := List.mem_of_getLast?_eq_some hpre
              exact (List.pairwise_append.1 hsort).2.2 p hp_mem (n, s)
                (List.mem_cons_self _ _)
            simp only [Bool.not_eq_true', beq_eq_false_iff_ne, ne_eq]
            intro hes
            have hse : scoreLtB s p.2 = false := by
              rw [← hes]
              exact h1
            have hps : scoreLtB p.2 s = false := h2
            rcases scoreLtB_trichotomy s p.2 with h | h | h
            · rw [hse] at h
              exact Bool.noConfusion h
            · exact hsp h
            · rw [hps] at h
              exact Bool.noConfusion h
          have hcnt : pre.countP (fun e => !(e.2 == s)) = pre.length :=
            List.countP_eq_length.2 hall
          rw [Nat.add_comm 1 (List.countP (fun e => !(e.2 == s)) pre), hcnt]
    rw [hstep]
    cases k with
    | zero =>
      unfold rankAt
      simp [List.getD]
    | succ k2 =>
      have hk2 : k2 < tl.length := by
        simpa using hk
      have hsort2 : List.Sorted evalGe ((pre ++ [(n, s)]) ++ tl) := by
        rw [List.append_assoc]
        simpa using hsort
      have hnil2 : pre ++ [(n, s)] = [] → (1 + pre.countP (fun e => !(e.2 == s))) = 1
          ∧ (some s : Option (Nat × List Nat)) = none := by
        intro h
        simp at h
      have hlast2 : ∀ p, (pre ++ [(n, s)]).getLast? = some p →
          (some s : Option (Nat × List Nat)) = some p.2 ∧
          1 + pre.countP (fun e => !(e.2 == s))
            = 1 + (pre ++ [(n, s)]).countP (fun e => !(e.2 == p.2)) := by
        intro p hp
        rw [List.getLast?_concat] at hp
        have hpns : p = (n, s) := by
          exact (Option.some_inj.1 hp).symm
        subst hpns
        refine ⟨rfl, ?_⟩
        rw [List.countP_append]
        simp
      have hres := ih (pre ++ [(n, s)]) _ (some s) hsort2 hnil2 hlast2 k2 hk2
      rw [List.length_append, List.length_cons, List.length_nil,
        Nat.zero_add] at hres
      have hrank : rankAt ((n, 1 + pre.countP (fun e => !(e.2 == s)), rankName s.1)
          :: assignRanksAux tl (pre.length + 1)
            (1 + pre.countP (fun e => !(e.2 == s))) (some s)) (k2 + 1)
          = rankAt (assignRanksAux tl (pre.length + 1)
            (1 + pre.countP (fun e => !(e.2 == s))) (some s)) k2 := by
        unfold rankAt
        rw [List.getD_cons_succ]
      rw [hrank, hres]
      congr 2
      rw [List.take_succ_cons, List.append_assoc]
      rfl

/-- Positional characterization of `assignRanks` on a sorted list: the rank
at index `k` is one plus the number of earlier entries with a different
score. -/
lemma assignRanks_formula (L : List (String × (Nat × List Nat)))
    (hs : List.Sorted evalGe L) :
    ∀ k, k < L.length →
      rankAt (assignRanks L) k
        = 1 + (L.take k).countP (fun e => !(e.2 == scoreAt L k)) := by
  intro k hk
  have h := assignRanksAux_spec L [] 1 none (by simpa using hs)
    (fun _ => ⟨rfl, rfl⟩) (by intro p hp; simp at hp) k hk
  simpa [assignRanks, scoreAt_eq] using h

lemma assignRanksAux_length :
    ∀ (l : List (String × (Nat × List Nat))) i cur prev,
      (assignRanksAux l i cur prev).length = l.length := by
  intro l
  induction l with
  | nil => intros; rfl
  | cons x xs ih =>
    intro i cur prev
    obtain ⟨n, s⟩ := x
    simp [assignRanksAux, ih]

lemma assignRanks_length (l : List (String × (Nat × List Nat))) :
    (assignRanks l).length = l.length :=
  assignRanksAux_length l 0 1 none

lemma getD_cons_drop (L : List (String × (Nat × List Nat))) {i : Nat}
    (hi : i < L.length) :
    L.drop i = L.getD i dEntry :: L.drop (i + 1) := by
  rw [List.getD_eq_getElem?_getD, List.getElem?_eq_getElem hi]
  simp [List.getElem_cons_drop]

lemma sorted_between_eq (L : List (String × (Nat × List Nat)))
    (hs : List.Sorted evalGe L) {i j : Nat} (hij : i ≤ j) (hj : j < L.length)
    (heq : scoreAt L i = scoreAt L j) :
    ∀ e ∈ (L.drop i).take (j - i), e.2 = scoreAt L i := by
  intro e he
  have hi : i < L.length := by omega
  have hmem_drop : e ∈ L.drop i := List.mem_of_mem_take he
  have h1 : evalGe (L.getD i dEntry) e := sorted_drop_rel hs hi e hmem_drop
  have hmem_take : e ∈ L.take j := by
    have hsplit : L.take j = L.take i ++ (L.drop i).take (j - i) := by
      have := List.take_add L i (j - i)
      rw [show i + (j - i) = j by omega] at this
      exact this
    rw [hsplit]
    exact List.mem_append_right _ he
  have h2 : evalGe e (L.getD j dEntry) := sorted_take_rel hs (by omega) hj e hmem_take
  rw [scoreAt_eq L i, scoreAt_eq L j] at heq
  rw [scoreAt_eq L i]
  have h1b : scoreLtB ((L.getD i dEntry)).2 e.2 = false := h1
  have h2b : scoreLtB e.2 ((L.getD j dEntry)).2 = false := h2
  rw [← heq] at h2b
  rcases scoreLtB_trichotomy e.2 ((L.getD i dEntry)).2 with h | h | h
  · rw [h2b] at h
    exact Bool.noConfusion h
  · exact h
  · rw [h1b] at h
    exact Bool.noConfusion h

lemma rank_one_iff (L : List (String × (Nat × List Nat)))
    (hs : List.Sorted evalGe L) {i : Nat} (hi : i < L.length) :
    rankAt (assignRanks L) i = 1 ↔ scoreAt L i = scoreAt L 0 := by
  rw [assignRanks_formula L hs i hi]
  constructor
  · intro h1
    have h0 : (L.take i).countP (fun e => !(e.2 == scoreAt L i)) = 0 := by omega
    by_cases hi0 : i = 0
    · rw [hi0]
    · have hmem : L.getD 0 dEntry ∈ L.take i := by
        cases L with
        | nil => simp at hi
        | cons a t =>
          cases i with
          | zero => omega
          | succ m =>
            rw [List.take_succ_cons]
            exact List.mem_cons_self _ _
      have hz := List.countP_eq_zero.1 h0 _ hmem
      simp only [Bool.not_eq_true', beq_eq_false_iff_ne, ne_eq,
        Decidable.not_not] at hz
      rw [scoreAt_eq L 0]
      exact hz.symm
  · intro heq
    have hz : (L.take i).countP (fun e => !(e.2 == scoreAt L i)) = 0 := by
      rw [List.countP_eq_zero]
      intro e he
      have hrange := sorted_between_eq L hs (i := 0) (j := i) (by omega) hi heq.symm
      have he2 : e.2 = scoreAt L 0 := by
        apply hrange
        simpa using he
      simp [he2, heq.symm]
    omega

lemma rank_eq_of_score_eq_le (L : List (String × (Nat × List Nat)))
    (hs : List.Sorted evalGe L) {i j : Nat} (hij : i ≤ j) (hj : j < L.length)
    (heq : scoreAt L i = scoreAt L j) :
    rankAt (assignRanks L) i = rankAt (assignRanks L) j := by
  have hi : i < L.length := by omega
  rw [assignRanks_formula L hs i hi, assignRanks_formula L hs j hj, heq]
  have hsplit : L.take j = L.take i ++ (L.drop i).take (j - i) := by
    have := List.take_add L i (j - i)
    rw [show i + (j - i) = j by omega] at this
    exact this
  rw [hsplit, List.countP_append]
  have hmid : ((L.drop i).take (j - i)).countP
      (fun e => !(e.2 == scoreAt L j)) = 0 := by
    rw [List.countP_eq_zero]
    intro e he
    have he2 := sorted_between_eq L hs hij hj heq e he
    simp [he2, heq]
  omega

lemma rank_succ_of_change (L : List (String × (Nat × List Nat)))
    (hs : List.Sorted evalGe L) {i : Nat} (hi : i < L.length) (h0 : 0 < i)
    (hne : scoreAt L i ≠ scoreAt L (i - 1)) :
    rankAt (assignRanks L) i = i + 1 := by
  rw [assignRanks_formula L hs i hi]
  have him1 : i - 1 < L.length := by omega
  have hall : ∀ e ∈ L.take i, (!(e.2 == scoreAt L i)) = true := by
    intro e he
    have h1 : evalGe e (L.getD (i - 1) dEntry) :=
      sorted_take_rel hs (by omega) him1 e he
    have h2 : evalGe (L.getD (i - 1) dEntry) (L.getD i dEntry) := by
      apply sorted_drop_rel hs him1
      have hd1 : L.drop (i - 1) = L.getD (i - 1) dEntry :: L.drop i := by
        have := getD_cons_drop L him1
        rwa [show i - 1 + 1 = i by omega] at this
      have hd2 : L.drop i = L.getD i dEntry :: L.drop (i + 1) :=
        getD_cons_drop L hi
      rw [hd1, hd2]
      exact List.mem_cons_of_mem _ (List.mem_cons_self _ _)
    simp only [Bool.not_eq_true', beq_eq_false_iff_ne, ne_eq]
    intro hes
    have hse : scoreLtB (scoreAt L i) ((L.getD (i - 1) dEntry)).2 = false := by
      rw [← hes]
      exact h1
    have hps : scoreLtB ((L.getD (i - 1) dEntry)).2 (scoreAt L i) = false := h2
    rcases scoreLtB_trichotomy (scoreAt L i) ((L.getD (i - 1) dEntry)).2
      with h | h | h
    · rw [hse] at h
      exact Bool.noConfusion h
    · exact hne (by rw [scoreAt_eq L (i - 1)]; exact h)
    · rw [hps] at h
      exact Bool.noConfusion h
  have hlen : (L.take i).countP (fun e => !(e.2 == scoreAt L i))
      = (L.take i).length := List.countP_eq_length.2 hall
  rw [hlen, List.length_take, min_eq_left (by omega)]
  omega

/-- Claim C5: `compare_players` on players' 7-card hands succeeds and assigns
standard competition rank positions over the descending sorted order: the
position is 1 exactly for the best score, equal scores share a position, and
an entry whose score differs from its predecessor at sorted index `i` gets
position `i + 1` (no gaps beyond tie counts). -/
theorem claim_C5_competition_ranking (ps : List (String × List Card))
    (h7 : ∀ p ∈ ps, (p.2).length = 7) :
    ∃ ev, evaluatedOf ps = some ev ∧
      compare_players ps = some (assignRanks (sortEval ev)) ∧
      (sortEval ev).length = ps.length ∧
      (assignRanks (sortEval ev)).length = ps.length ∧
      (∀ i, i < ps.length →
        (rankAt (assignRanks (sortEval ev)) i = 1 ↔
          scoreAt (sortEval ev) i = scoreAt (sortEval ev) 0)) ∧
      (∀ i j, i < ps.length → j < ps.length →
        scoreAt (sortEval ev) i = scoreAt (sortEval ev) j →
        rankAt (assignRanks (sortEval ev)) i
          = rankAt (assignRanks (sortEval ev)) j) ∧
      (∀ i, i < ps.length → 0 < i →
        scoreAt (sortEval ev) i ≠ scoreAt (sortEval ev) (i - 1) →
        rankAt (assignRanks (sortEval ev)) i = i + 1) := by
  obtain ⟨ev, hev, hlen⟩ := optionMapList_all
    (fun p => (best_hand p.2).map (fun s => (p.1, s))) ps (by
      intro p hp
      obtain ⟨s, hs⟩ := @best_hand_isSome p.2 (by rw [h7 p hp]; omega)
      exact ⟨(p.1, s), by simp [hs]⟩)
  have hsort : List.Sorted evalGe (sortEval ev) :=
    List.sorted_insertionSort evalGe ev
  have hslen : (sortEval ev).length = ps.length := by
    rw [← hlen]
    exact (List.perm_insertionSort evalGe ev).length_eq
  refine ⟨ev, hev, ?_, hslen, by rw [assignRanks_length, hslen], ?_, ?_, ?_⟩
  · unfold compare_players evaluatedOf
    rw [hev]
    rfl
  · intro i hi
    exact rank_one_iff _ hsort (by omega)
  · intro i j hi hj heq
    rcases le_total i j with hij | hij
    · exact rank_eq_of_score_eq_le _ hsort hij (by omega) heq
    · exact (rank_eq_of_score_eq_le _ hsort hij (by omega) heq.symm).symm
  · intro i hi h0 hne
    exact rank_succ_of_change _ hsort (by omega) h0 hne

/-- Witness for C5 at a concrete two-player showdown. -/
theorem claim_C5_witness :
    (∀ p ∈ ([("alice", [⟨.ace, .spades⟩, ⟨.king, .spades⟩, ⟨.queen, .spades⟩,
        ⟨.jack, .spades⟩, ⟨.n10, .spades⟩, ⟨.n2, .hearts⟩, ⟨.n3, .clubs⟩]),
      ("bob", [⟨.ace, .hearts⟩, ⟨.king, .hearts⟩, ⟨.queen, .hearts⟩,
        ⟨.n7, .clubs⟩, ⟨.n10, .diamonds⟩, ⟨.n2, .diamonds⟩, ⟨.n3, .spades⟩])] :
        List (String × List Card)), (p.2).length = 7) ∧
    ∃ ev, evaluatedOf [("alice", [⟨.ace, .spades⟩, ⟨.king, .spades⟩,
        ⟨.queen, .spades⟩, ⟨.jack, .spades⟩, ⟨.n10, .spades⟩, ⟨.n2, .hearts⟩,
        ⟨.n3, .clubs⟩]),
      ("bob", [⟨.ace, .hearts⟩, ⟨.king, .hearts⟩, ⟨.queen, .hearts⟩,
        ⟨.n7, .clubs⟩, ⟨.n10, .diamonds⟩, ⟨.n2, .diamonds⟩, ⟨.n3, .spades⟩])]
        = some ev ∧
      compare_players [("alice", [⟨.ace, .spades⟩, ⟨.king, .spades⟩,
        ⟨.queen, .spades⟩, ⟨.jack, .spades⟩, ⟨.n10, .spades⟩, ⟨.n2, .hearts⟩,
        ⟨.n3, .clubs⟩]),
      ("bob", [⟨.ace, .hearts⟩, ⟨.king, .hearts⟩, ⟨.queen, .hearts⟩,
        ⟨.n7, .clubs⟩, ⟨.n10, .diamonds⟩, ⟨.n2, .diamonds⟩, ⟨.n3, .spades⟩])]
        = some (assignRanks (sortEval ev)) ∧
      (sortEval ev).length = 2 ∧
      (assignRanks (sortEval ev)).length = 2 ∧
      (∀ i, i < 2 →
        (rankAt (assignRanks (sortEval ev)) i = 1 ↔
          scoreAt (sortEval ev) i = scoreAt (sortEval ev) 0)) ∧
      (∀ i j, i < 2 → j < 2 →
        scoreAt (sortEval ev) i = scoreAt (sortEval ev) j →
        rankAt (assignRanks (sortEval ev)) i
          = rankAt (assignRanks (sortEval ev)) j) ∧
      (∀ i, i < 2 → 0 < i →
        scoreAt (sortEval ev) i ≠ scoreAt (sortEval ev) (i - 1) →
        rankAt (assignRanks (sortEval ev)) i = i + 1) := by
  refine ⟨by decide, ?_⟩
  have h := claim_C5_competition_ranking
    [("alice", [⟨.ace, .spades⟩, ⟨.king, .spades⟩, ⟨.queen, .spades⟩,
        ⟨.jack, .spades⟩, ⟨.n10, .spades⟩, ⟨.n2, .hearts⟩, ⟨.n3, .clubs⟩]),
      ("bob", [⟨.ace, .hearts⟩, ⟨.king, .hearts⟩, ⟨.queen, .hearts⟩,
        ⟨.n7, .clubs⟩, ⟨.n10, .diamonds⟩, ⟨.n2, .diamonds⟩, ⟨.n3, .spades⟩])]
    (by decide)
  simpa using h

/-! ## Player (src/game/player.py)

Python integers are unbounded, so chip counts and commitments are `Int`. -/

structure Player where
  name : String
  chips : Int
  hand : List Card
  current_bet : Int
  total_bet_this_round : Int
  is_folded : Bool
  is_all_in : Bool
deriving DecidableEq, Repr

/-- `Player.bet`: deduct `min(amount, chips)` from the stack, add it to both
commitment counters, set the all-in flag when the stack reaches zero; returns
the updated player and the actual amount bet. -/
def Player.bet (p : Player) (amount : Int) : Player × Int :=
  let actual := min amount p.chips
  let q := { p with
    chips := p.chips - actual,
    current_bet := p.current_bet + actual,
    total_bet_this_round := p.total_bet_this_round + actual }
  (if q.chips = 0 then { q with is_all_in := true } else q, actual)

/-- Claim C10: `Player.bet` deducts exactly `min(amount, chips)`, never
drives the stack negative, adds the deducted amount to both the round and
cumulative commitments, and sets the all-in flag exactly when the stack
reaches zero (never clearing an already-set flag). -/
theorem claim_C10_bet_conserves_chips (p : Player) (amount : Int)
    (ha : 0 ≤ amount) (hc : 0 ≤ p.chips) :
    (p.bet amount).2 = min amount p.chips ∧
    (p.bet amount).1.chips = p.chips - min amount p.chips ∧
    0 ≤ (p.bet amount).1.chips ∧
    (p.bet amount).1.current_bet - p.current_bet = (p.bet amount).2 ∧
    (p.bet amount).1.total_bet_this_round - p.total_bet_this_round
      = (p.bet amount).2 ∧
    ((p.bet amount).1.is_all_in ↔
      (p.is_all_in ∨ (p.bet amount).1.chips = 0)) := by
  have hmin1 : min amount p.chips ≤ p.chips := min_le_right _ _
  have hmin2 : 0 ≤ min amount p.chips := le_min ha hc
  simp only [Player.bet]
  split_ifs with h
  · have h2 : p.chips - min amount p.chips = 0 := h
    refine ⟨by trivial, by trivial, ?_, ?_, ?_, ?_⟩
    · show 0 ≤ p.chips - min amount p.chips
      omega
    · show (p.current_bet + min amount p.chips) - p.current_bet
        = min amount p.chips
      ring
    · show (p.total_bet_this_round + min amount p.chips) - p.total_bet_this_round
        = min amount p.chips
      ring
    · show true = true ↔ (p.is_all_in = true ∨ p.chips - min amount p.chips = 0)
      simp [h2]
  · have h2 : ¬ p.chips - min amount p.chips = 0 := h
    refine ⟨by trivial, by trivial, ?_, ?_, ?_, ?_⟩
    · show 0 ≤ p.chips - min amount p.chips
      omega
    · show (p.current_bet + min amount p.chips) - p.current_bet
        = min amount p.chips
      ring
    · show (p.total_bet_this_round + min amount p.chips) - p.total_bet_this_round
        = min amount p.chips
      ring
    · show p.is_all_in = true ↔ (p.is_all_in = true ∨ p.chips - min amount p.chips = 0)
      simp [h2]

/-- Witness for C10 at a concrete player and amount. -/
theorem claim_C10_witness :
    (0 ≤ (30 : Int) ∧ 0 ≤ (⟨"p", 20, [], 5, 5, false, false⟩ : Player).chips) ∧
    ((Player.bet ⟨"p", 20, [], 5, 5, false, false⟩ 30).2 = min 30 20 ∧
      (Player.bet ⟨"p", 20, [], 5, 5, false, false⟩ 30).1.chips = 20 - min 30 20 ∧
      0 ≤ (Player.bet ⟨"p", 20, [], 5, 5, false, false⟩ 30).1.chips ∧
      (Player.bet ⟨"p", 20, [], 5, 5, false, false⟩ 30).1.current_bet - 5
        = (Player.bet ⟨"p", 20, [], 5, 5, false, false⟩ 30).2 ∧
      (Player.bet ⟨"p", 20, [], 5, 5, false, false⟩ 30).1.total_bet_this_round - 5
        = (Player.bet ⟨"p", 20, [], 5, 5, false, false⟩ 30).2 ∧
      ((Player.bet ⟨"p", 20, [], 5, 5, false, false⟩ 30).1.is_all_in ↔
        (false = true ∨ (Player.bet ⟨"p", 20, [], 5, 5, false, false⟩ 30).1.chips = 0))) := by
  refine ⟨⟨by norm_num, by norm_num⟩, ?_⟩
  have h := claim_C10_bet_conserves_chips ⟨"p", 20, [], 5, 5, false, false⟩ 30
    (by norm_num) (by norm_num)
  simpa using h

/-! ## Shoe (src/game/card.py, `Deck`) -/

/-- Claim C9: `deal` errors exactly when asked for more cards than remain
(leaving the shoe unchanged), otherwise removes the dealt prefix without
replacement; the remaining count drops by `n`, dealt and remaining cards
stay disjoint on a duplicate-free shoe, and any shuffle of a freshly reset
shoe holds exactly 52 pairwise-distinct cards. -/
theorem claim_C9_deal_without_replacement :
    (∀ (cards : List Card) (n : Nat), cards.length < n →
      deal cards n = .error "Cannot deal") ∧
    (∀ (cards : List Card) (n : Nat), n ≤ cards.length →
      deal cards n = .ok (cards.take n, cards.drop n) ∧
      (cards.take n).length = n ∧
      (cards.drop n).length = cards.length - n ∧
      cards.take n ++ cards.drop n = cards ∧
      (cards.Nodup → (cards.take n).Nodup ∧
        ∀ c ∈ cards.take n, c ∉ cards.drop n)) ∧
    (∀ d : List Card, List.Perm d resetCards → d.length = 52 ∧ d.Nodup) := by
  refine ⟨?_, ?_, ?_⟩
  · intro cards n h
    unfold deal
    rw [if_pos (by omega)]
  · intro cards n h
    refine ⟨by unfold deal; rw [if_neg (by omega)],
      List.length_take_of_le h, List.length_drop _ _,
      List.take_append_drop n cards, ?_⟩
    intro hnd
    have hsplit := List.take_append_drop n cards
    rw [← hsplit] at hnd
    rw [List.nodup_append] at hnd
    exact ⟨hnd.1, fun c hc hcd => hnd.2.2 hc hcd⟩
  · intro d hd
    refine ⟨by rw [hd.length_eq]; decide, ?_⟩
    have : resetCards.Nodup := by decide
    exact hd.nodup_iff.2 this

/-- Witness for C9 at the fresh 52-card shoe. -/
theorem claim_C9_witness :
    (resetCards.length < 53 ∧
      deal resetCards 53 = .error "Cannot deal") ∧
    ((5 ≤ resetCards.length) ∧
      deal resetCards 5 = .ok (resetCards.take 5, resetCards.drop 5) ∧
      (resetCards.take 5).length = 5 ∧
      (resetCards.drop 5).length = resetCards.length - 5 ∧
      resetCards.take 5 ++ resetCards.drop 5 = resetCards ∧
      (resetCards.Nodup → (resetCards.take 5).Nodup ∧
        ∀ c ∈ resetCards.take 5, c ∉ resetCards.drop 5)) ∧
    (resetCards.length = 52 ∧ resetCards.Nodup) := by
  refine ⟨⟨by decide, claim_C9_deal_without_replacement.1 _ 53 (by decide)⟩,
    ⟨by decide, claim_C9_deal_without_replacement.2.1 _ 5 (by decide)⟩,
    claim_C9_deal_without_replacement.2.2 resetCards (List.Perm.refl _)⟩

/-! ## Betting state machine (spec §4.3)

The `PokerGame` engine that `app.py` imports from `game.game_engine` is not
among the provided source files (the file of that name holds an unrelated
card game), so the operations below are modelled from the spec. -/

/-- The hand phases of §4.3. -/
inductive Phase
  | waiting | preFlop | flop | turn | river | showdown | handComplete
deriving DecidableEq, Repr

/-- The error taxonomy of §7. -/
inductive PokerErr
  | notPlayersTurn | unknownPlayer | illegalCheck | nothingToCall
  | raiseBelowMinimum | insufficientPlayers
deriving DecidableEq, Repr

/-- The betting actions of §4.3. -/
inductive PAction
  | fold | check | call | raiseTo (amount : Int) | allIn
deriving DecidableEq, Repr

/-- The table state of §3. -/
structure PokerState where
  players : List Player
  phase : Phase
  pot : Int
  currentBet : Int
  minRaise : Int
  dealerIdx : Nat
  actingIdx : Nat
  lastRaiserIdx : Nat
deriving Repr

/-- Advance the acting player to the next seat. -/
def advanceActing (s : PokerState) : PokerState :=
  { s with actingIdx := (s.actingIdx + 1) % s.players.length }

/-- Modelled from the spec: `playerAction` of the missing `PokerGame`
engine (§4.3/§7).  All preconditions are validated before any state is
touched; a violated precondition returns the matching typed error and, the
result being `Except`, no half-mutated state can escape.  An
under-sized raise is legal only as an all-in shove. -/
def player_action (s : PokerState) (nm : String) (act : PAction) :
    Except PokerErr PokerState :=
  match s.players[s.actingIdx]? with
  | none => .error .notPlayersTurn
  | some actor =>
    if actor.name ≠ nm then .error .notPlayersTurn
    else
      match act with
      | .fold =>
        .ok (advanceActing { s with
          players := s.players.set s.actingIdx { actor with is_folded := true } })
      | .check =>
        if actor.current_bet ≠ s.currentBet then .error .illegalCheck
        else .ok (advanceActing s)
      | .call =>
        let r := actor.bet (s.currentBet - actor.current_bet)
        .ok (advanceActing { s with
          players := s.players.set s.actingIdx r.1,
          pot := s.pot + r.2 })
      | .raiseTo amount =>
        if amount - s.currentBet < s.minRaise ∧
            amount < actor.chips + actor.current_bet then
          .error .raiseBelowMinimum
        else
          let r := actor.bet (amount - actor.current_bet)
          .ok { s with
            players := s.players.set s.actingIdx r.1,
            pot := s.pot + r.2,
            currentBet := max s.currentBet r.1.current_bet,
            lastRaiserIdx := s.actingIdx,
            actingIdx := (s.actingIdx + 1) % s.players.length }
      | .allIn =>
        let r := actor.bet actor.chips
        .ok { s with
          players := s.players.set s.actingIdx r.1,
          pot := s.pot + r.2,
          currentBet := max s.currentBet r.1.current_bet,
          actingIdx := (s.actingIdx + 1) % s.players.length }

/-- Modelled from the spec: `startNewHand` of the missing engine — requires
at least two funded players, else a typed error; blind posting and dealing
are abstracted to the per-hand reset. -/
def start_new_hand (s : PokerState) (bb : Int) : Except PokerErr PokerState :=
  if (s.players.filter (fun p => decide (0 < p.chips))).length < 2 then
    .error .insufficientPlayers
  else
    .ok { s with
      phase := .preFlop,
      pot := 0,
      currentBet := bb,
      minRaise := bb,
      dealerIdx := (s.dealerIdx + 1) % s.players.length,
      players := s.players.map (fun p => { p with
        hand := [],
        current_bet := 0,
        total_bet_this_round := 0,
        is_folded := false,
        is_all_in := false }) }

/-- The caller-side view of a mutating call: on error the engine state kept
by the caller is the unchanged input state. -/
def run_player_action (s : PokerState) (nm : String) (act : PAction) :
    PokerState × Option PokerErr :=
  match player_action s nm act with
  | .ok s2 => (s2, none)
  | .error e => (s, some e)

/-- Claim C8 (modelled from the spec): out-of-turn actions, illegal checks,
under-sized non-all-in raises, and starting with fewer than two funded
players each return the matching typed error, and a rejected action leaves
the observable state exactly as before the call. -/
theorem claim_C8_rejections_atomic :
    (∀ (s : PokerState) (nm : String) (act : PAction) actor,
      s.players[s.actingIdx]? = some actor → actor.name ≠ nm →
      player_action s nm act = .error .notPlayersTurn) ∧
    (∀ (s : PokerState) actor,
      s.players[s.actingIdx]? = some actor →
      actor.current_bet ≠ s.currentBet →
      player_action s actor.name .check = .error .illegalCheck) ∧
    (∀ (s : PokerState) actor (amount : Int),
      s.players[s.actingIdx]? = some actor →
      amount - s.currentBet < s.minRaise →
      amount < actor.chips + actor.current_bet →
      player_action s actor.name (.raiseTo amount) = .error .raiseBelowMinimum) ∧
    (∀ (s : PokerState) (bb : Int),
      (s.players.filter (fun p => decide (0 < p.chips))).length < 2 →
      start_new_hand s bb = .error .insufficientPlayers) ∧
    (∀ (s : PokerState) (nm : String) (act : PAction) (e : PokerErr),
      (run_player_action s nm act).2 = some e →
      (run_player_action s nm act).1 = s) := by
  refine ⟨?_, ?_, ?_, ?_, ?_⟩
  · intro s nm act actor hA hne
    unfold player_action
    rw [hA]
    simp [hne]
  · intro s actor hA hne
    unfold player_action
    rw [hA]
    simp [hne]
  · intro s actor amount hA h1 h2
    unfold player_action
    rw [hA]
    simp [h1, h2]
  · intro s bb h
    unfold start_new_hand
    rw [if_pos h]
  · intro s nm act e
    unfold run_player_action
    cases player_action s nm act with
    | ok s2 => intro h; exact Option.noConfusion h
    | error e2 => intro _; rfl

/-- Witness for C8 at a concrete two-player table. -/
theorem claim_C8_witness :
    ((⟨[⟨"alice", 100, [], 0, 0, false, false⟩,
        ⟨"bob", 100, [], 10, 10, false, false⟩],
      .preFlop, 10, 10, 10, 0, 0, 1⟩ : PokerState).players[0]?
        = some ⟨"alice", 100, [], 0, 0, false, false⟩ ∧
      player_action ⟨[⟨"alice", 100, [], 0, 0, false, false⟩,
          ⟨"bob", 100, [], 10, 10, false, false⟩],
        .preFlop, 10, 10, 10, 0, 0, 1⟩ "bob" .fold
        = .error .notPlayersTurn) ∧
    (player_action ⟨[⟨"alice", 100, [], 0, 0, false, false⟩,
        ⟨"bob", 100, [], 10, 10, false, false⟩],
      .preFlop, 10, 10, 10, 0, 0, 1⟩ "alice" .check
        = .error .illegalCheck) ∧
    (player_action ⟨[⟨"alice", 100, [], 0, 0, false, false⟩,
        ⟨"bob", 100, [], 10, 10, false, false⟩],
      .preFlop, 10, 10, 10, 0, 0, 1⟩ "alice" (.raiseTo 15)
        = .error .raiseBelowMinimum) ∧
    (start_new_hand ⟨[⟨"alice", 100, [], 0, 0, false, false⟩,
        ⟨"carol", 0, [], 0, 0, false, false⟩],
      .waiting, 0, 0, 10, 0, 0, 0⟩ 10
        = .error .insufficientPlayers) ∧
    ((run_player_action ⟨[⟨"alice", 100, [], 0, 0, false, false⟩,
        ⟨"bob", 100, [], 10, 10, false, false⟩],
      .preFlop, 10, 10, 10, 0, 0, 1⟩ "bob" .fold).1
        = ⟨[⟨"alice", 100, [], 0, 0, false, false⟩,
            ⟨"bob", 100, [], 10, 10, false, false⟩],
          .preFlop, 10, 10, 10, 0, 0, 1⟩) := by
  refine ⟨⟨by rfl, ?_⟩, ?_, ?_, ?_, ?_⟩
  · exact claim_C8_rejections_atomic.1 _ "bob" .fold
      ⟨"alice", 100, [], 0, 0, false, false⟩ (by rfl) (by decide)
  · exact claim_C8_rejections_atomic.2.1 _
      ⟨"alice", 100, [], 0, 0, false, false⟩ (by rfl) (by decide)
  · exact claim_C8_rejections_atomic.2.2.1 _
      ⟨"alice", 100, [], 0, 0, false, false⟩ 15 (by rfl) (by decide) (by decide)
  · exact claim_C8_rejections_atomic.2.2.2.1 _ 10 (by decide)
  · exact claim_C8_rejections_atomic.2.2.2.2 _ "bob" .fold .notPlayersTurn
      (by rfl)

end MicMind
